import Mathlib

/-! go-wares/xs: transaction executor and connection-group resolver.

A shallow embedding of `transaction.go`, `connection.go` and `config.go`.

Modelling conventions.

* A Go `error` is `Option Error`; `none` is `nil`.
* A `*xorm.Session` is `Option Session`; `none` is the nil pointer.  The session is an
  external capability: a `Session` value carries the result each of its transaction-control
  methods yields when called.
* A handler is a function of the session it receives.  It either returns (with an error or
  with nil) or panics.
* Calls that reach the engine are recorded, in order, in a list of `Call`s.  Handler calls
  are recorded with the position of the handler in `o.handlers`.
* Calls to the logging package are not modelled: they do not influence control flow
  (`log.Fatalfc` writes a record at the fatal level and returns).
* A Go string is a Lean `String` (valid UTF-8 only); a Go `int` is an `Int`, and `int64`
  arithmetic wraps explicitly.  The case table of package unicode is a parameter of
  everything that lower-cases.
* `connection.get` is one execution of `get` from `Lock` to return, with no other goroutine
  in between.  Concurrent callers are modelled separately (`get.step`, `get.run`): there
  the mutex is part of the state and the statements of `get` are interleaved.
-/

namespace xs

/-! ## Errors and panics -/

/-- A non-nil Go error value, identified by its message. -/
structure Error where
  msg : String
deriving DecidableEq, Repr

/-- A non-nil value handed to the Go builtin that aborts the goroutine, as the builtin
`recover()` yields it inside a deferred function. -/
inductive PanicValue where
  | str (s : String)
  | int (n : Int)
  | err (e : Error)
deriving DecidableEq, Repr

/-- The `%v` rendering of a value by package fmt. -/
def Sprintf_v : PanicValue → String
  | .str s => s
  | .int n => toString n
  | .err e => e.msg

/-- Go: `fmt.Errorf("%v", r)`. -/
def Errorf_v (r : PanicValue) : Error := ⟨Sprintf_v r⟩

/-- The panic raised by a method call through a nil `*xorm.Session`. -/
def nilDereference : PanicValue :=
  .err ⟨"runtime error: invalid memory address or nil pointer dereference"⟩

/-! ## Sessions, handlers and the call record -/

/-- A `*xorm.Session` (non-nil).  `id` is the identity of the pointer; the other fields are
the results of `Begin()`, `Commit()`, `Rollback()` and `Close()` on it. -/
structure Session where
  id : Nat
  Begin : Option Error
  Commit : Option Error
  Rollback : Option Error
  Close : Option Error
deriving DecidableEq, Repr

/-- What an invocation of a handler does: return `err`, or panic with `r`. -/
inductive Outcome where
  | ret (err : Option Error)
  | panics (r : PanicValue)
deriving DecidableEq, Repr

/-- Go: `TransactionHandler func(ctx context.Context, session *xorm.Session) (err error)`. -/
abbrev TransactionHandler := Session → Outcome

/-- One call made by `Run`, as an instrumented fake would record it. -/
inductive Call where
  /-- Go: `Connection.Master(ctx)`, a session is created. -/
  | Master
  | Begin (s : Session)
  /-- The handler at position `i` of `o.handlers` is invoked with session `s`. -/
  | Handler (i : Nat) (s : Session)
  | Commit (s : Session)
  | Rollback (s : Session)
  | Close (s : Session)
deriving DecidableEq, Repr

/-! ## transaction.go -/

/-- Go: the `transaction` struct.  A nil slice and an empty slice of handlers are both the
empty list: `append`, `range` and `len` do not distinguish them. -/
structure transaction where
  handlers : List TransactionHandler
  session : Option Session
  sessionCreated : Bool
  sessionOpened : Bool

/-- Go: `&transaction{}`, the zero value. -/
def transaction.zero : transaction :=
  { handlers := [], session := none, sessionCreated := false, sessionOpened := false }

/-- Go: `func (o *transaction) acquire() *transaction`. -/
def transaction.acquire (o : transaction) : transaction :=
  { o with handlers := [], sessionCreated := false, sessionOpened := false }

/-- Go: `func (o *transaction) clean() *transaction`. -/
def transaction.clean (o : transaction) : transaction :=
  { o with handlers := [], session := none }

/-- Go: `func (o *transaction) init() *transaction`. -/
def transaction.init (o : transaction) : transaction := o

/-- Go: `func Transaction() TransactionManager`.  The argument is what
`transactionPool.Get()` returned: `none` for nil. -/
def Transaction (v : Option transaction) : transaction :=
  match v with
  | some t => t.acquire
  | none => transaction.zero.init.acquire

/-- Go: `func (o *transaction) Add(handlers ...TransactionHandler) TransactionManager`. -/
def transaction.Add (o : transaction) (handlers : List TransactionHandler) : transaction :=
  { o with handlers := o.handlers ++ handlers }

/-- Go: `func (o *transaction) WithSession(session *xorm.Session) TransactionManager`. -/
def transaction.WithSession (o : transaction) (session : Option Session) : transaction :=
  { o with session := session }

/-- Go: `func (o *transaction) Release()`.  Returns what is handed to
`transactionPool.Put`. -/
def transaction.Release (o : transaction) : transaction := o.clean

/-- The state of the handler loop of `Run` when it is left: the value of `err`, the panic
in flight (if a handler panicked) and the handler calls made. -/
structure LoopExit where
  err : Option Error
  recovered : Option PanicValue
  calls : List Call
deriving DecidableEq, Repr

/-- Go: `for _, handler := range o.handlers { if err = handler(ctx, o.session); err != nil
{ break } }`, started at position `i` with the current value of `err`.  A panicking handler
never completes the assignment to `err`. -/
def rangeHandlers (s : Session) : List TransactionHandler → Nat → Option Error → LoopExit
  | [], _, err => ⟨err, none, []⟩
  | handler :: rest, i, err =>
    match handler s with
    | .panics r => ⟨err, some r, [Call.Handler i s]⟩
    | .ret (some e) => ⟨some e, none, [Call.Handler i s]⟩
    | .ret none =>
      let x := rangeHandlers s rest (i + 1) none
      ⟨x.err, x.recovered, Call.Handler i s :: x.calls⟩

/-- The state of a `Run` invocation at the moment its body is left and the deferred
function starts. -/
structure Frame where
  o : transaction
  err : Option Error
  recovered : Option PanicValue
  calls : List Call

/-- The body of `Run` (everything after the `defer` statement).  `master` is the session
`Connection.Master(ctx)` returns. -/
def Run.body (master : Session) (o : transaction) : Frame :=
  -- if o.session == nil { o.session = Connection.Master(ctx); o.sessionCreated = true }
  let o1 : transaction :=
    match o.session with
    | none => { o with session := some master, sessionCreated := true }
    | some _ => o
  let s : Session :=
    match o.session with
    | none => master
    | some s => s
  let c1 : List Call :=
    match o.session with
    | none => [Call.Master]
    | some _ => []
  -- if err = o.session.Begin(); err != nil { return }
  match s.Begin with
  | some e => ⟨o1, some e, none, c1 ++ [Call.Begin s]⟩
  | none =>
    -- o.sessionOpened = true
    let o2 : transaction := { o1 with sessionOpened := true }
    let x := rangeHandlers s o2.handlers 0 none
    ⟨o2, x.err, x.recovered, c1 ++ [Call.Begin s] ++ x.calls⟩

/-- What the caller of `Run` observes: the receiver afterwards, the returned error, a panic
that leaves `Run` (if any; the returned error is then meaningless), and the calls made. -/
structure RunResult where
  o : transaction
  err : Option Error
  panicked : Option PanicValue
  calls : List Call

/-- The first block of the deferred function: `if r := recover(); r != nil { ...; if err ==
nil { err = fmt.Errorf("%v", r) } }`. -/
def Run.recover (err : Option Error) (recovered : Option PanicValue) : Option Error :=
  match recovered with
  | none => err
  | some r =>
    match err with
    | none => some (Errorf_v r)
    | some e => some e

/-- The deferred function of `Run`. -/
def Run.deferred (f : Frame) : RunResult :=
  let err := Run.recover f.err f.recovered
  -- if o.sessionOpened { if err != nil { o.session.Rollback() } else { o.session.Commit() } }
  let finish : Option (List Call) :=
    if f.o.sessionOpened then
      match f.o.session with
      | none => none
      | some s => if err.isSome then some [Call.Rollback s] else some [Call.Commit s]
    else some []
  match finish with
  | none => ⟨f.o, err, some nilDereference, f.calls⟩
  | some c2 =>
    -- if o.sessionCreated { o.session.Close() }
    if f.o.sessionCreated then
      match f.o.session with
      | none => ⟨f.o, err, some nilDereference, f.calls ++ c2⟩
      | some s => ⟨f.o, err, none, f.calls ++ c2 ++ [Call.Close s]⟩
    else ⟨f.o, err, none, f.calls ++ c2⟩

/-- Go: `func (o *transaction) Run(ctx context.Context) (err error)`. -/
def transaction.Run (master : Session) (o : transaction) : RunResult :=
  Run.deferred (Run.body master o)

/-! ### Observations on the call record -/

/-- The handler invocations of a call record: position and session, in order. -/
def handlersInvoked : List Call → List (Nat × Session)
  | [] => []
  | Call.Handler i s :: cs => (i, s) :: handlersInvoked cs
  | _ :: cs => handlersInvoked cs

/-- The sessions on which `Commit` was called, in order. -/
def commits : List Call → List Session
  | [] => []
  | Call.Commit s :: cs => s :: commits cs
  | _ :: cs => commits cs

/-- The sessions on which `Rollback` was called, in order. -/
def rollbacks : List Call → List Session
  | [] => []
  | Call.Rollback s :: cs => s :: rollbacks cs
  | _ :: cs => rollbacks cs

/-- The sessions on which `Close` was called, in order. -/
def closes : List Call → List Session
  | [] => []
  | Call.Close s :: cs => s :: closes cs
  | _ :: cs => closes cs

/-- The finalization calls (`Commit` or `Rollback`) of a call record, in order. -/
def finalizations : List Call → List Call
  | [] => []
  | Call.Commit s :: cs => Call.Commit s :: finalizations cs
  | Call.Rollback s :: cs => Call.Rollback s :: finalizations cs
  | _ :: cs => finalizations cs

/-- The executors a caller can hold before `Run`: obtained from `Transaction()` (the pool
holds only what `Release` put there) and then configured through `Add` and `WithSession`. -/
inductive Acquired : transaction → Prop where
  | get (p : Option transaction) : Acquired (Transaction (p.map transaction.Release))
  | add {o : transaction} (hs : List TransactionHandler) : Acquired o → Acquired (o.Add hs)
  | withSession {o : transaction} (s : Option Session) :
      Acquired o → Acquired (o.WithSession s)

/-- The session `Run` works on: the bound one, or the one it creates. -/
def transaction.target (master : Session) (o : transaction) : Session :=
  match o.session with
  | none => master
  | some s => s

/-! ### Sample data -/

/-- A session on which every call succeeds. -/
def okSession (id : Nat) : Session := ⟨id, none, none, none, none⟩

/-- A session on which only `Commit` fails. -/
def commitFails (id : Nat) : Session := ⟨id, none, some ⟨"commit failed"⟩, none, none⟩

/-- A session on which `Begin` fails. -/
def beginFails (id : Nat) : Session := ⟨id, some ⟨"begin failed"⟩, none, none, none⟩

/-- A session on which `Rollback` and `Close` fail. -/
def cleanupFails (id : Nat) : Session :=
  ⟨id, none, none, some ⟨"rollback failed"⟩, some ⟨"close failed"⟩⟩

/-- A handler that returns nil. -/
def okHandler : TransactionHandler := fun _ => .ret none

/-- A handler that returns the error `e`. -/
def failHandler (e : Error) : TransactionHandler := fun _ => .ret (some e)

/-- A handler that panics with `r`. -/
def panicHandler (r : PanicValue) : TransactionHandler := fun _ => .panics r

/-- The calls `Handler i s, Handler (i+1) s, ...` for `n` consecutive positions. -/
def handlerCalls (s : Session) (i n : Nat) : List Call :=
  (List.range' i n).map (fun j => Call.Handler j s)

/-- An executor with three handlers, the second of which returns an error. -/
def secondFails : transaction :=
  (Transaction none).Add [okHandler, failHandler ⟨"x"⟩, okHandler]

/-- An executor with three handlers, the second of which panics. -/
def secondPanics : transaction :=
  (Transaction none).Add [okHandler, panicHandler (.str "boom"), okHandler]

/-! ## config.go: constants and the record -/

/-- Go: `DefaultDriver`. -/
def DefaultDriver : String := "mysql"

/-- Go: `DefaultDsn`. -/
def DefaultDsn : String := "username:password@tcp(127.0.0.1:3306)/undefined?charset=utf8"

/-- Go: the implementations of `names.Mapper` the package selects from. -/
inductive names.Mapper where
  | SnakeMapper
  | GonicMapper
  | SameMapper
deriving DecidableEq, Repr

/-- Go: the `Config` struct.  `maxLifetime` is a `time.Duration` (nanoseconds); `mapper` is
an interface value, nil until it is resolved. -/
structure Config where
  Driver : String
  Dsn : List String
  EnableSessionId : Bool
  ShowSql : Bool
  Mapper : String
  MaxIdle : Int
  MaxLifetime : Int
  MaxOpen : Int
  maxLifetime : Int
  mapper : Option names.Mapper
  username : String
  hostname : String
  schema : String
deriving DecidableEq, Repr

/-- Go: `func (o *Config) GetMapper() names.Mapper`. -/
def Config.GetMapper (o : Config) : Option names.Mapper := o.mapper

/-! ## connection.go -/

/-- A `*xorm.EngineGroup` (non-nil).  `id` is the identity of the pointer: the number of the
`xorm.NewEngineGroup` call that built it, 0 for the call made at package initialisation.
`driverName` and `dataSourceNames` are the arguments it was built from; every other field
holds the last value handed to the corresponding setter, `none` while none was. -/
structure EngineGroup where
  id : Nat
  driverName : String
  dataSourceNames : List String
  mapper : Option names.Mapper
  maxOpenConns : Option Int
  maxIdleConns : Option Int
  connMaxLifetime : Option Int
  logger : Option Config
  showSQL : Option Bool
  sessionID : Option Bool
deriving DecidableEq, Repr

/-- The group a successful `xorm.NewEngineGroup(driverName, dataSourceNames)` yields on
call number `id`, before any setter is applied. -/
def EngineGroup.new (id : Nat) (driverName : String) (dataSourceNames : List String) :
    EngineGroup :=
  ⟨id, driverName, dataSourceNames, none, none, none, none, none, none, none⟩

/-- Go: `eg.SetMapper(m)`. -/
def EngineGroup.SetMapper (eg : EngineGroup) (m : Option names.Mapper) : EngineGroup :=
  { eg with mapper := m }

/-- Go: `eg.SetMaxOpenConns(n)`. -/
def EngineGroup.SetMaxOpenConns (eg : EngineGroup) (n : Int) : EngineGroup :=
  { eg with maxOpenConns := some n }

/-- Go: `eg.SetMaxIdleConns(n)`. -/
def EngineGroup.SetMaxIdleConns (eg : EngineGroup) (n : Int) : EngineGroup :=
  { eg with maxIdleConns := some n }

/-- Go: `eg.SetConnMaxLifetime(d)`. -/
def EngineGroup.SetConnMaxLifetime (eg : EngineGroup) (d : Int) : EngineGroup :=
  { eg with connMaxLifetime := some d }

/-- Go: `eg.SetLogger(&logger{c: c})`. -/
def EngineGroup.SetLogger (eg : EngineGroup) (c : Config) : EngineGroup :=
  { eg with logger := some c }

/-- Go: `eg.ShowSQL(b)`. -/
def EngineGroup.ShowSQL (eg : EngineGroup) (b : Bool) : EngineGroup :=
  { eg with showSQL := some b }

/-- Go: `eg.EnableSessionID(b)`. -/
def EngineGroup.EnableSessionID (eg : EngineGroup) (b : Bool) : EngineGroup :=
  { eg with sessionID := some b }

/-- Go: `defaultEngineGroup, _ = xorm.NewEngineGroup(DefaultDriver, []string{DefaultDsn})`,
evaluated once at package initialisation.  The arguments are constants, the driver is
linked in by the blank import of the mysql driver and the data-source string is well
formed, so the call yields a group; the source discards its error result. -/
def defaultEngineGroup : EngineGroup := EngineGroup.new 0 DefaultDriver [DefaultDsn]

/-- The environment of `get`: whether call number `n` of `xorm.NewEngineGroup` (counted
from 1 after package initialisation) with the given driver and data-source list fails, and
with which error.  `none` is success. -/
abbrev NewEngineGroup := Nat → String → List String → Option Error

/-- Go: the `connection` struct, without its mutex.  A Go map is a finite function from
keys to values; `engines` only ever receives non-nil groups and `configs` non-nil records. -/
structure connection where
  configs : String → Option Config
  engines : String → Option EngineGroup

/-- Go: `o.engines[name] = eg`. -/
def connection.store (o : connection) (name : String) (eg : EngineGroup) : connection :=
  { o with engines := fun n => if n = name then some eg else o.engines n }

/-- What one execution of `get` yields: the returned pointer, the registry afterwards, and
the record of construction attempts (the names for which `xorm.NewEngineGroup` was called
since package initialisation, in order). -/
structure GetResult where
  eg : Option EngineGroup
  o : connection
  attempts : List String

/-- The body of `get`, up to its `return` statements: the value of the named result `eg`
when the deferred function starts, the registry and the attempts so far. -/
def get.body (xorm : NewEngineGroup) (o : connection) (attempts : List String)
    (name : String) : GetResult :=
  -- if eg, ok = o.engines[name]; ok { return }
  match o.engines name with
  | some eg => ⟨some eg, o, attempts⟩
  | none =>
    -- if c, ok = o.configs[name]; !ok { return }
    match o.configs name with
    | none => ⟨none, o, attempts⟩
    | some c =>
      -- if eg, err = xorm.NewEngineGroup(c.Driver, c.Dsn); err != nil { eg = nil; return }
      match xorm (attempts.length + 1) c.Driver c.Dsn with
      | some _ => ⟨none, o, attempts ++ [name]⟩
      | none =>
        let eg := EngineGroup.new (attempts.length + 1) c.Driver c.Dsn
        let eg := eg.SetMapper c.GetMapper
        let eg := eg.SetMaxOpenConns c.MaxOpen
        let eg := eg.SetMaxIdleConns c.MaxIdle
        let eg := eg.SetConnMaxLifetime c.maxLifetime
        let eg := eg.SetLogger c
        let eg := eg.ShowSQL c.ShowSql
        let eg := eg.EnableSessionID c.EnableSessionId
        -- o.engines[name] = eg
        ⟨some eg, o.store name eg, attempts ++ [name]⟩

/-- Go: `func (o *connection) get(name string) (eg *xorm.EngineGroup)`: the body followed
by the deferred `if eg == nil { eg = defaultEngineGroup }`. -/
def connection.get (xorm : NewEngineGroup) (o : connection) (attempts : List String)
    (name : String) : GetResult :=
  let r := get.body xorm o attempts name
  match r.eg with
  | none => ⟨some defaultEngineGroup, r.o, r.attempts⟩
  | some eg => ⟨some eg, r.o, r.attempts⟩

/-- A caller-side sequence of lookups, one `get` per name, in order: the registry and the
attempts afterwards. -/
def connection.gets (xorm : NewEngineGroup) (o : connection) (attempts : List String) :
    List String → connection × List String
  | [] => (o, attempts)
  | name :: rest =>
    connection.gets xorm (o.get xorm attempts name).o (o.get xorm attempts name).attempts rest

/-- Go: `func (o *connection) init() *connection`, with the result of `scan` (the parsed
and defaulted configuration file) given as `configs`. -/
def connection.init (configs : String → Option Config) : connection :=
  { configs := configs, engines := fun _ => none }

/-! ### Sample data -/

/-- The record for "db" of the end-to-end scenario, after `Default`. -/
def ordersConfig : Config :=
  { Driver := "mysql", Dsn := ["u:p@tcp(host:3306)/orders"], EnableSessionId := false,
    ShowSql := false, Mapper := "snake", MaxIdle := 2, MaxLifetime := 60, MaxOpen := 50,
    maxLifetime := 60000000000, mapper := some .SnakeMapper, username := "u",
    hostname := "host:3306", schema := "orders" }

/-- A registry that has a record for "db" only and no group yet. -/
def dbOnly : connection :=
  connection.init (fun n => if n = "db" then some ordersConfig else none)

/-- An environment in which every construction succeeds. -/
def alwaysBuilds : NewEngineGroup := fun _ _ _ => none

/-- An environment in which the first construction fails and every later one succeeds. -/
def firstDialFails : NewEngineGroup :=
  fun n _ _ => if n = 1 then some ⟨"dial failed"⟩ else none

/-! ### A second `Run` on the same instance -/

/-- The executor as a further call of `Run` finds it.  A `Session` value fixes what the
session answers during one `Run`; between two calls the pointer (`id`) stays and the
answers may change.  `next` prescribes the answers for the coming call. -/
def transaction.again (o : transaction) (next : Session) : transaction :=
  { o with session := o.session.map (fun s => { next with id := s.id }) }

/-- An executor after use: three handlers added and `Run` completed on a session it
created, so that both flags are set. -/
def usedExecutor : transaction :=
  (((Transaction none).Add [okHandler, okHandler, okHandler]).Run (okSession 1)).o

/-! ## Library functions used by config.go -/

/-- Go: `unicode.ToLower`.  Runes up to `MaxASCII` are handled by the function itself; for
every other rune the result comes from the case table of package unicode, which is the
parameter `table`. -/
def unicode.ToLower (table : Char → Char) (r : Char) : Char :=
  if r.toNat ≤ 127 then
    if 65 ≤ r.toNat ∧ r.toNat ≤ 90 then Char.ofNat (r.toNat + 32) else r
  else table r

/-- Go: `strings.ToLower`, which maps `unicode.ToLower` over the runes of the string. -/
def strings.ToLower (table : Char → Char) (s : String) : String :=
  ⟨s.data.map (unicode.ToLower table)⟩

/-- Go: `unicode.IsSpace`: the white-space runes of Latin-1 and those with the Unicode
property White_Space beyond it. -/
def unicode.IsSpace (r : Char) : Bool :=
  decide (9 ≤ r.toNat ∧ r.toNat ≤ 13) || r.toNat == 32 || r.toNat == 0x85 ||
  r.toNat == 0xA0 || r.toNat == 0x1680 || decide (0x2000 ≤ r.toNat ∧ r.toNat ≤ 0x200A) ||
  r.toNat == 0x2028 || r.toNat == 0x2029 || r.toNat == 0x202F || r.toNat == 0x205F ||
  r.toNat == 0x3000

/-- Go: `strings.TrimSpace`: the string without its leading and trailing white space. -/
def strings.TrimSpace (s : String) : String :=
  ⟨((s.data.dropWhile unicode.IsSpace).reverse.dropWhile unicode.IsSpace).reverse⟩

/-- Go: the Duration `time.Second`, in nanoseconds. -/
def time.Second : Int := 1000000000

/-- The value an `int64` holds after an arithmetic result `x`: two's-complement wrap. -/
def wrapInt64 (x : Int) : Int := (x + 2 ^ 63) % 2 ^ 64 - 2 ^ 63

/-! ## The pattern `regexpConfigDsn`

Pattern text: `^([_a-zA-Z0-9-.]+):(\S+)@tcp\(([^)]+)\)/([_a-zA-Z0-9-.]+)`, matched with the
leftmost-first rule of package regexp: every `+` takes as much as it can and gives back
only as far as the rest of the pattern needs. -/

/-- The class `[_a-zA-Z0-9-.]`: underscore, ASCII letters, digits, hyphen and dot. -/
def regexpConfigDsn.nameChar (c : Char) : Bool :=
  c.toNat == 95 || decide (97 ≤ c.toNat ∧ c.toNat ≤ 122) ||
  decide (65 ≤ c.toNat ∧ c.toNat ≤ 90) || decide (48 ≤ c.toNat ∧ c.toNat ≤ 57) ||
  c.toNat == 45 || c.toNat == 46

/-- The class `\S`: every rune but tab, newline, form feed, carriage return and space. -/
def regexpConfigDsn.nonSpace (c : Char) : Bool :=
  !(c.toNat == 9 || c.toNat == 10 || c.toNat == 12 || c.toNat == 13 || c.toNat == 32)

/-- The class `[^)]`. -/
def regexpConfigDsn.notParen (c : Char) : Bool := !(c.toNat == 41)

/-- The text `cs` without the leading literal `lit`, when it starts with it. -/
def regexpConfigDsn.literal (lit : String) (cs : List Char) : Option (List Char) :=
  if lit.data.isPrefixOf cs then some (cs.drop lit.data.length) else none

/-- The part of the pattern after group 2, `@tcp\(([^)]+)\)/([_a-zA-Z0-9-.]+)`, matched
at the start of `cs`: groups 3 and 4.  Group 3 cannot contain a closing parenthesis, so it
is the whole run up to the first one; group 4 is the longest run of name characters. -/
def regexpConfigDsn.afterPassword (cs : List Char) : Option (List Char × List Char) :=
  match regexpConfigDsn.literal "@tcp(" cs with
  | none => none
  | some rest =>
    if rest.takeWhile regexpConfigDsn.notParen = [] then none
    else
      match regexpConfigDsn.literal ")/" (rest.dropWhile regexpConfigDsn.notParen) with
      | none => none
      | some r2 =>
        if r2.takeWhile regexpConfigDsn.nameChar = [] then none
        else some (rest.takeWhile regexpConfigDsn.notParen,
                   r2.takeWhile regexpConfigDsn.nameChar)

/-- Group 2 and what follows it, `(\S+)@tcp...`, matched at the start of `cs`: groups 2,
3 and 4.  A longer group 2 is preferred to a shorter one. -/
def regexpConfigDsn.password : List Char → Option (List Char × List Char × List Char)
  | [] => none
  | c :: cs =>
    if regexpConfigDsn.nonSpace c then
      match regexpConfigDsn.password cs with
      | some (pass, host, schema) => some (c :: pass, host, schema)
      | none =>
        match regexpConfigDsn.afterPassword cs with
        | some (host, schema) => some ([c], host, schema)
        | none => none
    else none

/-- Go: `regexpConfigDsn.FindStringSubmatch(s)`: the whole match followed by the four
groups, or the empty (nil) slice when `s` does not match.  Group 1 cannot contain a colon,
so it is the whole run of name characters at the start. -/
def regexpConfigDsn.FindStringSubmatch (s : String) : List String :=
  if s.data.takeWhile regexpConfigDsn.nameChar = [] then []
  else
    match regexpConfigDsn.literal ":" (s.data.dropWhile regexpConfigDsn.nameChar) with
    | none => []
    | some rest =>
      match regexpConfigDsn.password rest with
      | none => []
      | some (pass, host, schema) =>
        [⟨s.data.takeWhile regexpConfigDsn.nameChar ++ ":".data ++ pass ++ "@tcp(".data
            ++ host ++ ")/".data ++ schema⟩,
         ⟨s.data.takeWhile regexpConfigDsn.nameChar⟩, ⟨pass⟩, ⟨host⟩, ⟨schema⟩]

/-! ## config.go: normalisation -/

/-- Go: `DefaultMapper`. -/
def DefaultMapper : String := "snake"

/-- Go: `DefaultMaxIdle`. -/
def DefaultMaxIdle : Int := 2

/-- Go: `DefaultMaxLifetime`. -/
def DefaultMaxLifetime : Int := 60

/-- Go: `DefaultMaxOpen`. -/
def DefaultMaxOpen : Int := 50

/-- Go: `func (o *Config) parseConnectionMapper()`. -/
def Config.parseConnectionMapper (o : Config) : Config :=
  if o.Mapper = "snake" then { o with mapper := some .SnakeMapper }
  else if o.Mapper = "gonic" then { o with mapper := some .GonicMapper }
  else { o with mapper := some .SameMapper }

/-- Go: `func (o *Config) parseDatabaseSourceName()`.  The loop body ends in `break`, so
only the first element of `o.Dsn` is looked at. -/
def Config.parseDatabaseSourceName (o : Config) : Config :=
  match o.Dsn with
  | [] => o
  | s :: _ =>
    -- if s = strings.TrimSpace(s); s != ""
    if strings.TrimSpace s ≠ "" then
      -- if m := regexpConfigDsn.FindStringSubmatch(s); len(m) == 5
      if (regexpConfigDsn.FindStringSubmatch (strings.TrimSpace s)).length = 5 then
        { o with
          username := (regexpConfigDsn.FindStringSubmatch (strings.TrimSpace s)).getD 1 "",
          hostname := (regexpConfigDsn.FindStringSubmatch (strings.TrimSpace s)).getD 3 "",
          schema := (regexpConfigDsn.FindStringSubmatch (strings.TrimSpace s)).getD 4 "" }
      else o
    else o

/-- Go: `func (o *Config) Default() *Config`. -/
def Config.Default (table : Char → Char) (o : Config) : Config :=
  -- if o.Driver == "" { o.Driver = DefaultDriver }
  let o : Config := if o.Driver = "" then { o with Driver := DefaultDriver } else o
  -- if o.Mapper == "" { o.Mapper = DefaultMapper }
  let o : Config := if o.Mapper = "" then { o with Mapper := DefaultMapper } else o
  -- o.Mapper = strings.ToLower(o.Mapper)
  let o : Config := { o with Mapper := strings.ToLower table o.Mapper }
  -- if o.MaxIdle == 0 { o.MaxIdle = DefaultMaxIdle }
  let o : Config := if o.MaxIdle = 0 then { o with MaxIdle := DefaultMaxIdle } else o
  -- if o.MaxLifetime == 0 { o.MaxLifetime = DefaultMaxLifetime }
  let o : Config :=
    if o.MaxLifetime = 0 then { o with MaxLifetime := DefaultMaxLifetime } else o
  -- if o.MaxOpen == 0 { o.MaxOpen = DefaultMaxOpen }
  let o : Config := if o.MaxOpen = 0 then { o with MaxOpen := DefaultMaxOpen } else o
  -- o.maxLifetime = time.Duration(o.MaxLifetime) * time.Second
  let o : Config := { o with maxLifetime := wrapInt64 (o.MaxLifetime * time.Second) }
  o.parseConnectionMapper.parseDatabaseSourceName

/-- A record as the configuration loader constructs it: the public fields as given, the
derived fields at their zero values. -/
def Config.fresh (Driver : String) (Dsn : List String) (EnableSessionId ShowSql : Bool)
    (Mapper : String) (MaxIdle MaxLifetime MaxOpen : Int) : Config :=
  { Driver := Driver, Dsn := Dsn, EnableSessionId := EnableSessionId, ShowSql := ShowSql,
    Mapper := Mapper, MaxIdle := MaxIdle, MaxLifetime := MaxLifetime, MaxOpen := MaxOpen,
    maxLifetime := 0, mapper := none, username := "", hostname := "", schema := "" }

/-- The record for "db" of the end-to-end scenario, as loaded. -/
def ordersInput : Config :=
  Config.fresh "mysql" ["u:p@tcp(host:3306)/orders"] false false "" 0 0 0

/-- A record with the mapper selector `s` and nothing else set. -/
def mapperInput (s : String) : Config := Config.fresh "" [] false false s 0 0 0

/-- What `parseDatabaseSourceName` reads off a data-source list: the user, host and schema
groups of the first element, when that element, trimmed, is not empty and matches. -/
def Config.dsnParts : List String → Option (String × String × String)
  | [] => none
  | s :: _ =>
    if strings.TrimSpace s ≠ "" ∧
        (regexpConfigDsn.FindStringSubmatch (strings.TrimSpace s)).length = 5 then
      some ((regexpConfigDsn.FindStringSubmatch (strings.TrimSpace s)).getD 1 "",
            (regexpConfigDsn.FindStringSubmatch (strings.TrimSpace s)).getD 3 "",
            (regexpConfigDsn.FindStringSubmatch (strings.TrimSpace s)).getD 4 "")
    else none

/-- The naming strategy `parseConnectionMapper` selects for a selector. -/
def Config.selectMapper (selector : String) : names.Mapper :=
  if selector = "snake" then .SnakeMapper
  else if selector = "gonic" then .GonicMapper
  else .SameMapper

/-- The record `Default` yields, before the data-source string is looked at. -/
def Config.filled (table : Char → Char) (o : Config) : Config :=
  { Driver := if o.Driver = "" then DefaultDriver else o.Driver,
    Dsn := o.Dsn,
    EnableSessionId := o.EnableSessionId,
    ShowSql := o.ShowSql,
    Mapper := strings.ToLower table (if o.Mapper = "" then DefaultMapper else o.Mapper),
    MaxIdle := if o.MaxIdle = 0 then DefaultMaxIdle else o.MaxIdle,
    MaxLifetime := if o.MaxLifetime = 0 then DefaultMaxLifetime else o.MaxLifetime,
    MaxOpen := if o.MaxOpen = 0 then DefaultMaxOpen else o.MaxOpen,
    maxLifetime :=
      wrapInt64 ((if o.MaxLifetime = 0 then DefaultMaxLifetime else o.MaxLifetime)
        * time.Second),
    mapper := some (Config.selectMapper
      (strings.ToLower table (if o.Mapper = "" then DefaultMapper else o.Mapper))),
    username := o.username,
    hostname := o.hostname,
    schema := o.schema }

/-- The groups a sequence of lookups returns, each with the name looked up.  Concurrent
callers of `get` are let in by the mutex one at a time; the list is the order in which
they are. -/
def connection.answers (xorm : NewEngineGroup) (o : connection) (attempts : List String) :
    List String → List (String × Option EngineGroup)
  | [] => []
  | name :: rest =>
    (name, (o.get xorm attempts name).eg) ::
      connection.answers xorm (o.get xorm attempts name).o
        (o.get xorm attempts name).attempts rest

/-- An environment in which every construction fails. -/
def neverBuilds : NewEngineGroup := fun _ _ _ => some ⟨"unsupported driver"⟩

/-! ## Concurrent callers of `get`

Goroutines are numbered; goroutine `i` calls `get(callers i)`.  Each takes the steps of
`get` one at a time, and a schedule (a list of goroutine numbers) says whose turn it is.
The mutex `o.mu` is part of the state: a goroutine at `o.mu.Lock()` moves on only when no
goroutine holds it. -/

/-- Where a goroutine stands in its execution of `get`, with the values of its local
variables that are still needed. -/
inductive get.Point where
  /-- Before `o.mu.Lock()`. -/
  | lock
  /-- Before `eg, ok = o.engines[name]`. -/
  | lookup
  /-- Before `c, ok = o.configs[name]`. -/
  | config
  /-- Before `xorm.NewEngineGroup(c.Driver, c.Dsn)`. -/
  | construct (c : Config)
  /-- Before `o.engines[name] = eg`, the options already set on `eg`. -/
  | store (eg : EngineGroup)
  /-- In the deferred function, before `o.mu.Unlock()`. -/
  | unlock (eg : Option EngineGroup)
  /-- In the deferred function, before `if eg == nil`. -/
  | fallback (eg : Option EngineGroup)
  /-- After the return, with the returned pointer. -/
  | returned (eg : Option EngineGroup)
deriving DecidableEq, Repr

/-- The registry with its mutex, the record of construction attempts, and the point each
goroutine has reached.  `mu` is the goroutine that holds `o.mu`, `none` when it is free. -/
structure Goroutines where
  o : connection
  attempts : List String
  mu : Option Nat
  point : Nat → get.Point

/-- The state in which no goroutine has started its call yet. -/
def Goroutines.start (o : connection) (attempts : List String) : Goroutines :=
  { o := o, attempts := attempts, mu := none, point := fun _ => .lock }

/-- One step of goroutine `i`: the next statement of `get`.  A goroutine at
`o.mu.Lock()` does not move while the mutex is held; one that has returned stays. -/
def get.step (xorm : NewEngineGroup) (callers : Nat → String) (st : Goroutines) (i : Nat) :
    Goroutines :=
  match st.point i with
  | .lock =>
    -- o.mu.Lock()
    match st.mu with
    | none => { st with mu := some i, point := Function.update st.point i .lookup }
    | some _ => st
  | .lookup =>
    -- if eg, ok = o.engines[name]; ok { return }
    match st.o.engines (callers i) with
    | some eg => { st with point := Function.update st.point i (.unlock (some eg)) }
    | none => { st with point := Function.update st.point i .config }
  | .config =>
    -- if c, ok = o.configs[name]; !ok { return }
    match st.o.configs (callers i) with
    | none => { st with point := Function.update st.point i (.unlock none) }
    | some c => { st with point := Function.update st.point i (.construct c) }
  | .construct c =>
    -- if eg, err = xorm.NewEngineGroup(c.Driver, c.Dsn); err != nil { eg = nil; return }
    match xorm (st.attempts.length + 1) c.Driver c.Dsn with
    | some _ =>
      { st with attempts := st.attempts ++ [callers i],
                point := Function.update st.point i (.unlock none) }
    | none =>
      let eg := EngineGroup.new (st.attempts.length + 1) c.Driver c.Dsn
      let eg := eg.SetMapper c.GetMapper
      let eg := eg.SetMaxOpenConns c.MaxOpen
      let eg := eg.SetMaxIdleConns c.MaxIdle
      let eg := eg.SetConnMaxLifetime c.maxLifetime
      let eg := eg.SetLogger c
      let eg := eg.ShowSQL c.ShowSql
      let eg := eg.EnableSessionID c.EnableSessionId
      { st with attempts := st.attempts ++ [callers i],
                point := Function.update st.point i (.store eg) }
  | .store eg =>
    -- o.engines[name] = eg; return
    { st with o := st.o.store (callers i) eg,
              point := Function.update st.point i (.unlock (some eg)) }
  | .unlock eg =>
    -- o.mu.Unlock()
    { st with mu := none, point := Function.update st.point i (.fallback eg) }
  | .fallback eg =>
    -- if eg == nil { eg = defaultEngineGroup }
    match eg with
    | none => { st with point := Function.update st.point i (.returned (some defaultEngineGroup)) }
    | some g => { st with point := Function.update st.point i (.returned (some g)) }
  | .returned _ => st

/-- The state after the goroutines have taken their steps in the order of `schedule`. -/
def get.run (xorm : NewEngineGroup) (callers : Nat → String) (st : Goroutines)
    (schedule : List Nat) : Goroutines :=
  schedule.foldl (get.step xorm callers) st

/-- The points between `o.mu.Lock()` and `o.mu.Unlock()`. -/
def get.Point.locked : get.Point → Bool
  | .lookup => true
  | .config => true
  | .construct _ => true
  | .store _ => true
  | .unlock _ => true
  | _ => false

/-- The points a goroutine can be at while its name is cached as `g`. -/
def get.Point.cachedOk (g : EngineGroup) : get.Point → Prop
  | .lock => True
  | .lookup => True
  | .unlock eg => eg = some g
  | .fallback eg => eg = some g
  | .returned eg => eg = some g
  | _ => False

/-- The points a goroutine can be at while its name has neither record nor entry. -/
def get.Point.unconfiguredOk : get.Point → Prop
  | .lock => True
  | .lookup => True
  | .config => True
  | .unlock eg => eg = none
  | .fallback eg => eg = none
  | .returned eg => eg = some defaultEngineGroup
  | _ => False

/-- The points a goroutine can be at while its name, with record `c`, has no entry and no
construction for it was attempted. -/
def get.Point.beforeOk (c : Config) : get.Point → Prop
  | .lock => True
  | .lookup => True
  | .config => True
  | .construct d => d = c
  | _ => False

/-- Mutual exclusion: a goroutine between `Lock` and `Unlock` is the holder of the
mutex. -/
def get.Exclusive (st : Goroutines) : Prop :=
  ∀ i, (st.point i).locked = true → st.mu = some i

/-- The state of affairs while `name` is cached as `g`, with `k` construction attempts
for it on record. -/
def get.CachedInv (callers : Nat → String) (name : String) (g : EngineGroup) (k : Nat)
    (st : Goroutines) : Prop :=
  st.o.engines name = some g ∧ st.attempts.count name = k ∧
  ∀ i, callers i = name → (st.point i).cachedOk g

/-- The state of affairs while `name` has neither record nor entry. -/
def get.UnconfiguredInv (callers : Nat → String) (name : String) (k : Nat)
    (st : Goroutines) : Prop :=
  st.o.engines name = none ∧ st.o.configs name = none ∧ st.attempts.count name = k ∧
  ∀ i, callers i = name → (st.point i).unconfiguredOk

/-- The state of affairs for a name with record `c` and no entry at the start, when its
construction does not fail: nothing attempted yet; or one goroutine has built `g` and is
about to store it while the others wait; or `g` is cached. -/
def get.ConfiguredInv (callers : Nat → String) (name : String) (c : Config) (k : Nat)
    (st : Goroutines) : Prop :=
  get.Exclusive st ∧ st.o.configs name = some c ∧
  ((st.o.engines name = none ∧ st.attempts.count name = k ∧
      ∀ i, callers i = name → (st.point i).beforeOk c) ∨
   (∃ g j, st.o.engines name = none ∧ st.attempts.count name = k + 1 ∧
      callers j = name ∧ st.point j = .store g ∧
      ∀ i, callers i = name → i ≠ j → st.point i = .lock) ∨
   (∃ g, get.CachedInv callers name g (k + 1) st))

/-- The group `get` has in hand after a successful construction on attempt number `n`
from the record `c`, with its options set. -/
def get.built (n : Nat) (c : Config) : EngineGroup :=
  (((((((EngineGroup.new n c.Driver c.Dsn).SetMapper c.GetMapper).SetMaxOpenConns
    c.MaxOpen).SetMaxIdleConns c.MaxIdle).SetConnMaxLifetime c.maxLifetime).SetLogger
    c).ShowSQL c.ShowSql).EnableSessionID c.EnableSessionId

/-- A schedule for ten goroutines, numbered 0 to 9, that all call `get` at once: each in
turn tries to take the mutex, then the steps are dealt out round-robin until every one of
them has returned. -/
def tenCallers : List Nat :=
  (List.replicate 26 (List.range 10)).flatten

/-! ## Lemmas on the call record -/

@[simp] theorem handlersInvoked_nil : handlersInvoked [] = [] := rfl

@[simp] theorem handlersInvoked_cons_Master (cs : List Call) :
    handlersInvoked (Call.Master :: cs) = handlersInvoked cs := rfl

@[simp] theorem handlersInvoked_cons_Begin (s : Session) (cs : List Call) :
    handlersInvoked (Call.Begin s :: cs) = handlersInvoked cs := rfl

@[simp] theorem handlersInvoked_cons_Handler (i : Nat) (s : Session) (cs : List Call) :
    handlersInvoked (Call.Handler i s :: cs) = (i, s) :: handlersInvoked cs := rfl

@[simp] theorem handlersInvoked_cons_Commit (s : Session) (cs : List Call) :
    handlersInvoked (Call.Commit s :: cs) = handlersInvoked cs := rfl

@[simp] theorem handlersInvoked_cons_Rollback (s : Session) (cs : List Call) :
    handlersInvoked (Call.Rollback s :: cs) = handlersInvoked cs := rfl

@[simp] theorem handlersInvoked_cons_Close (s : Session) (cs : List Call) :
    handlersInvoked (Call.Close s :: cs) = handlersInvoked cs := rfl

@[simp] theorem commits_nil : commits [] = [] := rfl

@[simp] theorem commits_cons_Master (cs : List Call) :
    commits (Call.Master :: cs) = commits cs := rfl

@[simp] theorem commits_cons_Begin (s : Session) (cs : List Call) :
    commits (Call.Begin s :: cs) = commits cs := rfl

@[simp] theorem commits_cons_Handler (i : Nat) (s : Session) (cs : List Call) :
    commits (Call.Handler i s :: cs) = commits cs := rfl

@[simp] theorem commits_cons_Commit (s : Session) (cs : List Call) :
    commits (Call.Commit s :: cs) = s :: commits cs := rfl

@[simp] theorem commits_cons_Rollback (s : Session) (cs : List Call) :
    commits (Call.Rollback s :: cs) = commits cs := rfl

@[simp] theorem commits_cons_Close (s : Session) (cs : List Call) :
    commits (Call.Close s :: cs) = commits cs := rfl

@[simp] theorem rollbacks_nil : rollbacks [] = [] := rfl

@[simp] theorem rollbacks_cons_Master (cs : List Call) :
    rollbacks (Call.Master :: cs) = rollbacks cs := rfl

@[simp] theorem rollbacks_cons_Begin (s : Session) (cs : List Call) :
    rollbacks (Call.Begin s :: cs) = rollbacks cs := rfl

@[simp] theorem rollbacks_cons_Handler (i : Nat) (s : Session) (cs : List Call) :
    rollbacks (Call.Handler i s :: cs) = rollbacks cs := rfl

@[simp] theorem rollbacks_cons_Commit (s : Session) (cs : List Call) :
    rollbacks (Call.Commit s :: cs) = rollbacks cs := rfl

@[simp] theorem rollbacks_cons_Rollback (s : Session) (cs : List Call) :
    rollbacks (Call.Rollback s :: cs) = s :: rollbacks cs := rfl

@[simp] theorem rollbacks_cons_Close (s : Session) (cs : List Call) :
    rollbacks (Call.Close s :: cs) = rollbacks cs := rfl

@[simp] theorem closes_nil : closes [] = [] := rfl

@[simp] theorem closes_cons_Master (cs : List Call) :
    closes (Call.Master :: cs) = closes cs := rfl

@[simp] theorem closes_cons_Begin (s : Session) (cs : List Call) :
    closes (Call.Begin s :: cs) = closes cs := rfl

@[simp] theorem closes_cons_Handler (i : Nat) (s : Session) (cs : List Call) :
    closes (Call.Handler i s :: cs) = closes cs := rfl

@[simp] theorem closes_cons_Commit (s : Session) (cs : List Call) :
    closes (Call.Commit s :: cs) = closes cs := rfl

@[simp] theorem closes_cons_Rollback (s : Session) (cs : List Call) :
    closes (Call.Rollback s :: cs) = closes cs := rfl

@[simp] theorem closes_cons_Close (s : Session) (cs : List Call) :
    closes (Call.Close s :: cs) = s :: closes cs := rfl

@[simp] theorem finalizations_nil : finalizations [] = [] := rfl

@[simp] theorem finalizations_cons_Master (cs : List Call) :
    finalizations (Call.Master :: cs) = finalizations cs := rfl

@[simp] theorem finalizations_cons_Begin (s : Session) (cs : List Call) :
    finalizations (Call.Begin s :: cs) = finalizations cs := rfl

@[simp] theorem finalizations_cons_Handler (i : Nat) (s : Session) (cs : List Call) :
    finalizations (Call.Handler i s :: cs) = finalizations cs := rfl

@[simp] theorem finalizations_cons_Commit (s : Session) (cs : List Call) :
    finalizations (Call.Commit s :: cs) = Call.Commit s :: finalizations cs := rfl

@[simp] theorem finalizations_cons_Rollback (s : Session) (cs : List Call) :
    finalizations (Call.Rollback s :: cs) = Call.Rollback s :: finalizations cs := rfl

@[simp] theorem finalizations_cons_Close (s : Session) (cs : List Call) :
    finalizations (Call.Close s :: cs) = finalizations cs := rfl

@[simp] theorem handlersInvoked_append (a b : List Call) :
    handlersInvoked (a ++ b) = handlersInvoked a ++ handlersInvoked b := by
  induction a with
  | nil => rfl
  | cons c cs ih => cases c <;> simp [handlersInvoked, ih]

@[simp] theorem commits_append (a b : List Call) :
    commits (a ++ b) = commits a ++ commits b := by
  induction a with
  | nil => rfl
  | cons c cs ih => cases c <;> simp [commits, ih]

@[simp] theorem rollbacks_append (a b : List Call) :
    rollbacks (a ++ b) = rollbacks a ++ rollbacks b := by
  induction a with
  | nil => rfl
  | cons c cs ih => cases c <;> simp [rollbacks, ih]

@[simp] theorem closes_append (a b : List Call) :
    closes (a ++ b) = closes a ++ closes b := by
  induction a with
  | nil => rfl
  | cons c cs ih => cases c <;> simp [closes, ih]

@[simp] theorem finalizations_append (a b : List Call) :
    finalizations (a ++ b) = finalizations a ++ finalizations b := by
  induction a with
  | nil => rfl
  | cons c cs ih => cases c <;> simp [finalizations, ih]

@[simp] theorem handlersInvoked_handlerCalls (s : Session) (i n : Nat) :
    handlersInvoked (handlerCalls s i n) = (List.range' i n).map (fun j => (j, s)) := by
  induction n generalizing i with
  | zero => rfl
  | succ n ih =>
    have h := ih (i + 1)
    simp only [handlerCalls] at h
    simp [handlerCalls, List.range'_succ, handlersInvoked, h]

@[simp] theorem handlerCalls_no_finish (s : Session) (i n : Nat) :
    commits (handlerCalls s i n) = [] ∧ rollbacks (handlerCalls s i n) = [] ∧
    closes (handlerCalls s i n) = [] ∧ finalizations (handlerCalls s i n) = [] := by
  induction n generalizing i with
  | zero => simp [handlerCalls, commits, rollbacks, closes, finalizations]
  | succ n ih =>
    have h := ih (i + 1)
    simp only [handlerCalls] at h
    simp [handlerCalls, List.range'_succ, commits, rollbacks, closes, finalizations, h]

/-- The handler loop records handler calls only. -/
theorem rangeHandlers_calls_only (s : Session) (hs : List TransactionHandler) :
    ∀ (i : Nat) (err : Option Error),
      commits (rangeHandlers s hs i err).calls = [] ∧
      rollbacks (rangeHandlers s hs i err).calls = [] ∧
      closes (rangeHandlers s hs i err).calls = [] ∧
      finalizations (rangeHandlers s hs i err).calls = [] := by
  induction hs with
  | nil => intro i err; simp [rangeHandlers, commits, rollbacks, closes, finalizations]
  | cons h rest ih =>
    intro i err
    have hr := ih (i + 1) none
    unfold rangeHandlers
    cases hh : h s with
    | panics r => simp [commits, rollbacks, closes, finalizations]
    | ret e =>
      cases e with
      | some e => simp [commits, rollbacks, closes, finalizations]
      | none => simpa [commits, rollbacks, closes, finalizations] using hr

/-- When every handler returns nil the loop runs all of them and leaves `err` nil. -/
theorem rangeHandlers_all_ok (s : Session) (hs : List TransactionHandler) :
    ∀ (i : Nat), (∀ h ∈ hs, h s = .ret none) →
      rangeHandlers s hs i none = ⟨none, none, handlerCalls s i hs.length⟩ := by
  induction hs with
  | nil => intro i _; simp [rangeHandlers, handlerCalls]
  | cons h rest ih =>
    intro i hall
    have h1 : h s = .ret none := hall h (List.mem_cons_self _ _)
    have h2 := ih (i + 1) (fun g hg => hall g (List.mem_cons_of_mem _ hg))
    simp only [handlerCalls] at h2
    simp [rangeHandlers, h1, h2, handlerCalls, List.range'_succ]

/-- The loop stops at the first handler that returns an error. -/
theorem rangeHandlers_first_error (s : Session) (pre : List TransactionHandler)
    (hk : TransactionHandler) (post : List TransactionHandler) (e : Error) :
    ∀ (i : Nat), (∀ h ∈ pre, h s = .ret none) → hk s = .ret (some e) →
      rangeHandlers s (pre ++ hk :: post) i none
        = ⟨some e, none, handlerCalls s i (pre.length + 1)⟩ := by
  induction pre with
  | nil => intro i _ hke; simp [rangeHandlers, hke, handlerCalls]
  | cons h rest ih =>
    intro i hall hke
    have h1 : h s = .ret none := hall h (List.mem_cons_self _ _)
    have h2 := ih (i + 1) (fun g hg => hall g (List.mem_cons_of_mem _ hg)) hke
    simp only [handlerCalls] at h2
    simp [rangeHandlers, h1, h2, handlerCalls, List.range'_succ]

/-- The loop is left at the first handler that panics, with `err` still nil. -/
theorem rangeHandlers_first_panic (s : Session) (pre : List TransactionHandler)
    (hk : TransactionHandler) (post : List TransactionHandler) (r : PanicValue) :
    ∀ (i : Nat), (∀ h ∈ pre, h s = .ret none) → hk s = .panics r →
      rangeHandlers s (pre ++ hk :: post) i none
        = ⟨none, some r, handlerCalls s i (pre.length + 1)⟩ := by
  induction pre with
  | nil => intro i _ hkp; simp [rangeHandlers, hkp, handlerCalls]
  | cons h rest ih =>
    intro i hall hkp
    have h1 : h s = .ret none := hall h (List.mem_cons_self _ _)
    have h2 := ih (i + 1) (fun g hg => hall g (List.mem_cons_of_mem _ hg)) hkp
    simp only [handlerCalls] at h2
    simp [rangeHandlers, h1, h2, handlerCalls, List.range'_succ]

/-- An executor obtained from `Transaction()` and configured through `Add` and
`WithSession` has both flags cleared. -/
theorem Acquired.flags {o : transaction} (h : Acquired o) :
    o.sessionCreated = false ∧ o.sessionOpened = false := by
  induction h with
  | get p => cases p <;> simp [Transaction, transaction.acquire]
  | add hs _ ih => simpa [transaction.Add] using ih
  | withSession s _ ih => simpa [transaction.WithSession] using ih

/-- The session and flags `Run` leaves, the calls before the handlers, and the session
handed to `Begin`, for an executor that has no session bound. -/
theorem Run.body_created (master : Session) (o : transaction) (h : o.session = none) :
    o.target master = master ∧
    Run.body master o =
      (match master.Begin with
       | some e =>
         ⟨{ o with session := some master, sessionCreated := true }, some e, none,
          [Call.Master, Call.Begin master]⟩
       | none =>
         ⟨{ o with session := some master, sessionCreated := true, sessionOpened := true },
          (rangeHandlers master o.handlers 0 none).err,
          (rangeHandlers master o.handlers 0 none).recovered,
          [Call.Master, Call.Begin master] ++ (rangeHandlers master o.handlers 0 none).calls⟩) := by
  constructor
  · simp [transaction.target, h]
  · simp only [Run.body, h]
    cases master.Begin <;> simp

/-- The same for an executor with a bound session. -/
theorem Run.body_bound (master s : Session) (o : transaction) (h : o.session = some s) :
    o.target master = s ∧
    Run.body master o =
      (match s.Begin with
       | some e => ⟨o, some e, none, [Call.Begin s]⟩
       | none =>
         ⟨{ o with sessionOpened := true },
          (rangeHandlers s o.handlers 0 none).err,
          (rangeHandlers s o.handlers 0 none).recovered,
          [Call.Begin s] ++ (rangeHandlers s o.handlers 0 none).calls⟩) := by
  constructor
  · simp [transaction.target, h]
  · simp only [Run.body, h]
    cases s.Begin <;> simp


/-! ## Claims on `Run` -/

/-- C1 (as stated, refuted): it is not the case that a failing commit with no prior error
makes `Run` return the commit error.  With one handler that returns nil and a created
session whose `Commit` fails, `Run` returns nil. -/
theorem Run_commit_error_not_returned :
    ¬ (∀ (o : transaction) (master : Session) (e : Error), Acquired o →
        (o.target master).Begin = none →
        (∀ h ∈ o.handlers, h (o.target master) = .ret none) →
        (o.target master).Commit = some e →
        (o.Run master).err = some e) := by
  intro h
  have h1 := h ((Transaction none).Add [okHandler]) (commitFails 1)
    ⟨"commit failed"⟩ (Acquired.add _ (Acquired.get none)) (by decide) (by decide) (by decide)
  revert h1
  decide

/-- C1 (amended): when begin succeeds, every queued handler returns nil and the commit call
fails, `Run` returns nil: `Commit` is called once on the session, its failure is not
returned, no rollback is attempted and no panic leaves `Run`. -/
theorem Run_commit_error_logged_only (o : transaction) (master : Session) (e : Error)
    (ho : Acquired o)
    (hb : (o.target master).Begin = none)
    (hh : ∀ h ∈ o.handlers, h (o.target master) = .ret none)
    (hc : (o.target master).Commit = some e) :
    (o.Run master).err = none ∧ (o.Run master).panicked = none ∧
    commits (o.Run master).calls = [o.target master] ∧
    rollbacks (o.Run master).calls = [] := by
  have _ := hc
  have hf := ho.flags
  cases hs : o.session with
  | none =>
    obtain ⟨ht, hbody⟩ := Run.body_created master o hs
    rw [ht] at hb hh
    rw [ht, transaction.Run, hbody, hb, rangeHandlers_all_ok master o.handlers 0 hh]
    simp [Run.deferred, Run.recover]
  | some s =>
    obtain ⟨ht, hbody⟩ := Run.body_bound master s o hs
    rw [ht] at hb hh
    rw [ht, transaction.Run, hbody, hb, rangeHandlers_all_ok s o.handlers 0 hh]
    simp [Run.deferred, Run.recover, hs, hf.1]

/-- Witness for C1 (amended): one handler returning nil, a created session whose `Commit`
fails. -/
theorem Run_commit_error_logged_only_witness :
    (((Transaction none).Add [okHandler]).Run (commitFails 1)).err = none ∧
    (((Transaction none).Add [okHandler]).Run (commitFails 1)).panicked = none ∧
    commits (((Transaction none).Add [okHandler]).Run (commitFails 1)).calls
      = [((Transaction none).Add [okHandler]).target (commitFails 1)] ∧
    rollbacks (((Transaction none).Add [okHandler]).Run (commitFails 1)).calls = [] :=
  Run_commit_error_logged_only ((Transaction none).Add [okHandler]) (commitFails 1)
    ⟨"commit failed"⟩ (Acquired.add _ (Acquired.get none)) (by decide)
    (by decide) (by decide)

/-- C2: when begin succeeds, the handlers before position k return nil and the handler at
position k returns an error, `Run` invokes exactly the handlers at positions 0..k, once
each, in registration order, every one with the same session, and none after position k. -/
theorem Run_stops_at_first_error (o : transaction) (master : Session)
    (pre : List TransactionHandler) (hk : TransactionHandler)
    (post : List TransactionHandler) (e : Error)
    (hb : (o.target master).Begin = none)
    (hl : o.handlers = pre ++ hk :: post)
    (hpre : ∀ h ∈ pre, h (o.target master) = .ret none)
    (hke : hk (o.target master) = .ret (some e)) :
    handlersInvoked (o.Run master).calls
      = (List.range (pre.length + 1)).map (fun i => (i, o.target master)) ∧
    (∀ j s, (j, s) ∈ handlersInvoked (o.Run master).calls → j ≤ pre.length) := by
  have key : handlersInvoked (o.Run master).calls
      = (List.range (pre.length + 1)).map (fun i => (i, o.target master)) := by
    cases hs : o.session with
    | none =>
      obtain ⟨ht, hbody⟩ := Run.body_created master o hs
      rw [ht] at hb hpre hke
      rw [ht, transaction.Run, hbody, hb, hl,
        rangeHandlers_first_error master pre hk post e 0 hpre hke]
      cases hso : o.sessionOpened <;> cases master.Rollback <;>
        simp [Run.deferred, Run.recover, List.range_eq_range']
    | some s =>
      obtain ⟨ht, hbody⟩ := Run.body_bound master s o hs
      rw [ht] at hb hpre hke
      rw [ht, transaction.Run, hbody, hb, hl,
        rangeHandlers_first_error s pre hk post e 0 hpre hke]
      cases hsc : o.sessionCreated <;>
        simp [Run.deferred, Run.recover, List.range_eq_range', hs, hsc]
  refine ⟨key, ?_⟩
  intro j s hj
  rw [key] at hj
  simp only [List.mem_map, List.mem_range, Prod.mk.injEq] at hj
  obtain ⟨a, ha, rfl, _⟩ := hj
  omega

/-- Witness for C2: three handlers, the second of which fails. -/
theorem Run_stops_at_first_error_witness :
    handlersInvoked (((Transaction none).Add
        [okHandler, failHandler ⟨"x"⟩, okHandler]).Run (okSession 1)).calls
      = (List.range ([okHandler].length + 1)).map (fun i =>
          (i, ((Transaction none).Add
            [okHandler, failHandler ⟨"x"⟩, okHandler]).target (okSession 1))) ∧
    (∀ j s, (j, s) ∈ handlersInvoked (((Transaction none).Add
        [okHandler, failHandler ⟨"x"⟩, okHandler]).Run (okSession 1)).calls →
      j ≤ [okHandler].length) :=
  Run_stops_at_first_error ((Transaction none).Add [okHandler, failHandler ⟨"x"⟩, okHandler])
    (okSession 1) [okHandler] (failHandler ⟨"x"⟩) [okHandler] ⟨"x"⟩
    (by decide) rfl (by decide) (by decide)

/-- C3: on an executor obtained from `Transaction()`, when begin succeeds, `Run` makes
exactly one finalization call, on the session it works on and after every handler call:
`Commit` when every handler returned nil, `Rollback` when some handler returned an error;
it never calls both. -/
theorem Run_finalizes_once (o : transaction) (master : Session)
    (ho : Acquired o) (hb : (o.target master).Begin = none) :
    (finalizations (o.Run master).calls = [Call.Commit (o.target master)] ∨
      finalizations (o.Run master).calls = [Call.Rollback (o.target master)]) ∧
    (∃ before after, (o.Run master).calls = before ++ finalizations (o.Run master).calls ++ after ∧
      finalizations before = [] ∧ finalizations after = [] ∧ handlersInvoked after = []) ∧
    ((∀ h ∈ o.handlers, h (o.target master) = .ret none) →
      finalizations (o.Run master).calls = [Call.Commit (o.target master)]) ∧
    (∀ pre hk post e, o.handlers = pre ++ hk :: post →
      (∀ h ∈ pre, h (o.target master) = .ret none) → hk (o.target master) = .ret (some e) →
      finalizations (o.Run master).calls = [Call.Rollback (o.target master)]) := by
  have hf := ho.flags
  cases hs : o.session with
  | none =>
    obtain ⟨ht, hbody⟩ := Run.body_created master o hs
    rw [ht] at hb
    rw [ht, transaction.Run, hbody, hb]
    have hc := rangeHandlers_calls_only master o.handlers 0 none
    refine ⟨?_, ?_, ?_, ?_⟩
    · cases h : (Run.recover (rangeHandlers master o.handlers 0 none).err
        (rangeHandlers master o.handlers 0 none).recovered) <;>
        simp [Run.deferred, h, hc.2.2.2]
    · cases h : (Run.recover (rangeHandlers master o.handlers 0 none).err
        (rangeHandlers master o.handlers 0 none).recovered)
      · refine ⟨[Call.Master, Call.Begin master] ++ (rangeHandlers master o.handlers 0 none).calls,
          [Call.Close master], ?_⟩
        simp [Run.deferred, h, hc.2.2.2]
      · refine ⟨[Call.Master, Call.Begin master] ++ (rangeHandlers master o.handlers 0 none).calls,
          [Call.Close master], ?_⟩
        simp [Run.deferred, h, hc.2.2.2]
    · intro hall
      rw [rangeHandlers_all_ok master o.handlers 0 hall]
      simp [Run.deferred, Run.recover]
    · intro pre hk post e hl hpre hke
      rw [hl, rangeHandlers_first_error master pre hk post e 0 hpre hke]
      simp [Run.deferred, Run.recover]
  | some s =>
    obtain ⟨ht, hbody⟩ := Run.body_bound master s o hs
    rw [ht] at hb
    rw [ht, transaction.Run, hbody, hb]
    have hc := rangeHandlers_calls_only s o.handlers 0 none
    refine ⟨?_, ?_, ?_, ?_⟩
    · cases h : (Run.recover (rangeHandlers s o.handlers 0 none).err
        (rangeHandlers s o.handlers 0 none).recovered) <;>
        simp [Run.deferred, h, hc.2.2.2, hs, hf.1]
    · cases h : (Run.recover (rangeHandlers s o.handlers 0 none).err
        (rangeHandlers s o.handlers 0 none).recovered)
      · refine ⟨[Call.Begin s] ++ (rangeHandlers s o.handlers 0 none).calls, [], ?_⟩
        simp [Run.deferred, h, hc.2.2.2, hs, hf.1]
      · refine ⟨[Call.Begin s] ++ (rangeHandlers s o.handlers 0 none).calls, [], ?_⟩
        simp [Run.deferred, h, hc.2.2.2, hs, hf.1]
    · intro hall
      rw [rangeHandlers_all_ok s o.handlers 0 hall]
      simp [Run.deferred, Run.recover, hs, hf.1]
    · intro pre hk post e hl hpre hke
      rw [hl, rangeHandlers_first_error s pre hk post e 0 hpre hke]
      simp [Run.deferred, Run.recover, hs, hf.1]

/-- Witness for C3: three handlers, the second fails, on a created session. -/
theorem Run_finalizes_once_witness :
    Acquired secondFails ∧ (secondFails.target (okSession 1)).Begin = none ∧
    finalizations (secondFails.Run (okSession 1)).calls
      = [Call.Rollback (secondFails.target (okSession 1))] :=
  ⟨Acquired.add _ (Acquired.get none), by decide,
    (Run_finalizes_once secondFails (okSession 1) (Acquired.add _ (Acquired.get none))
      (by decide)).2.2.2 [okHandler] (failHandler ⟨"x"⟩) [okHandler] ⟨"x"⟩ rfl
      (by decide) (by decide)⟩

/-- C4: on an executor obtained from `Transaction()`, whatever begin, the handlers and the
finalization call do, `Run` calls `Close` exactly once, on the session it created, when no
session was bound, and never calls `Close` when a non-nil session was bound through
`WithSession`. -/
theorem Run_closes_only_created (o : transaction) (master : Session) (ho : Acquired o) :
    (o.session = none → closes (o.Run master).calls = [master]) ∧
    (∀ s, o.session = some s → closes (o.Run master).calls = []) := by
  have hf := ho.flags
  constructor
  · intro hs
    obtain ⟨_, hbody⟩ := Run.body_created master o hs
    have hc := rangeHandlers_calls_only master o.handlers 0 none
    rw [transaction.Run, hbody]
    cases hb : master.Begin with
    | some e => simp [Run.deferred, Run.recover, hf.2]
    | none =>
      cases h : (Run.recover (rangeHandlers master o.handlers 0 none).err
        (rangeHandlers master o.handlers 0 none).recovered) <;>
        simp [Run.deferred, h, hc.2.2.1]
  · intro s hs
    obtain ⟨_, hbody⟩ := Run.body_bound master s o hs
    have hc := rangeHandlers_calls_only s o.handlers 0 none
    rw [transaction.Run, hbody]
    cases hb : s.Begin with
    | some e => simp [Run.deferred, Run.recover, hf.1, hf.2]
    | none =>
      cases h : (Run.recover (rangeHandlers s o.handlers 0 none).err
        (rangeHandlers s o.handlers 0 none).recovered) <;>
        simp [Run.deferred, h, hc.2.2.1, hs, hf.1]

/-- Witness for C4: a panicking handler on a created session, and the same handlers on a
bound session. -/
theorem Run_closes_only_created_witness :
    Acquired secondPanics ∧
    closes (secondPanics.Run (okSession 1)).calls = [okSession 1] ∧
    closes ((secondPanics.WithSession (some (okSession 2))).Run (okSession 1)).calls = [] :=
  ⟨Acquired.add _ (Acquired.get none),
    (Run_closes_only_created secondPanics (okSession 1)
      (Acquired.add _ (Acquired.get none))).1 rfl,
    (Run_closes_only_created (secondPanics.WithSession (some (okSession 2))) (okSession 1)
      (Acquired.withSession _ (Acquired.add _ (Acquired.get none)))).2 (okSession 2) rfl⟩

/-- C5: when begin succeeds and the first failing handler returns the error `e`, `Run`
returns exactly `e`, whatever `Rollback` and `Close` on the session yield. -/
theorem Run_returns_handler_error (o : transaction) (master : Session)
    (pre : List TransactionHandler) (hk : TransactionHandler)
    (post : List TransactionHandler) (e : Error)
    (hb : (o.target master).Begin = none)
    (hl : o.handlers = pre ++ hk :: post)
    (hpre : ∀ h ∈ pre, h (o.target master) = .ret none)
    (hke : hk (o.target master) = .ret (some e)) :
    (o.Run master).err = some e ∧ (o.Run master).panicked = none := by
  cases hs : o.session with
  | none =>
    obtain ⟨ht, hbody⟩ := Run.body_created master o hs
    rw [ht] at hb hpre hke
    rw [transaction.Run, hbody, hb, hl,
      rangeHandlers_first_error master pre hk post e 0 hpre hke]
    simp [Run.deferred, Run.recover]
  | some s =>
    obtain ⟨ht, hbody⟩ := Run.body_bound master s o hs
    rw [ht] at hb hpre hke
    rw [transaction.Run, hbody, hb, hl,
      rangeHandlers_first_error s pre hk post e 0 hpre hke]
    cases hsc : o.sessionCreated <;> simp [Run.deferred, Run.recover, hs, hsc]

/-- Witness for C5: the second handler fails and both `Rollback` and `Close` fail. -/
theorem Run_returns_handler_error_witness :
    (secondFails.target (cleanupFails 1)).Rollback = some ⟨"rollback failed"⟩ ∧
    (secondFails.target (cleanupFails 1)).Close = some ⟨"close failed"⟩ ∧
    (secondFails.Run (cleanupFails 1)).err = some ⟨"x"⟩ ∧
    (secondFails.Run (cleanupFails 1)).panicked = none :=
  ⟨by decide, by decide,
    Run_returns_handler_error secondFails (cleanupFails 1) [okHandler] (failHandler ⟨"x"⟩)
      [okHandler] ⟨"x"⟩ (by decide) rfl (by decide) (by decide)⟩

/-- C6: on an executor obtained from `Transaction()`, when begin fails with `e`, `Run`
returns `e`, invokes no handler, calls neither `Commit` nor `Rollback`, and leaves
`sessionOpened` false. -/
theorem Run_begin_error (o : transaction) (master : Session) (e : Error)
    (ho : Acquired o) (hb : (o.target master).Begin = some e) :
    (o.Run master).err = some e ∧ (o.Run master).panicked = none ∧
    handlersInvoked (o.Run master).calls = [] ∧
    commits (o.Run master).calls = [] ∧ rollbacks (o.Run master).calls = [] ∧
    (o.Run master).o.sessionOpened = false := by
  have hf := ho.flags
  cases hs : o.session with
  | none =>
    obtain ⟨ht, hbody⟩ := Run.body_created master o hs
    rw [ht] at hb
    rw [transaction.Run, hbody, hb]
    simp [Run.deferred, Run.recover, hf.2]
  | some s =>
    obtain ⟨ht, hbody⟩ := Run.body_bound master s o hs
    rw [ht] at hb
    rw [transaction.Run, hbody, hb]
    simp [Run.deferred, Run.recover, hf.1, hf.2]

/-- Witness for C6: three queued handlers, begin fails on the created session. -/
theorem Run_begin_error_witness :
    Acquired secondFails ∧
    (secondFails.Run (beginFails 1)).err = some ⟨"begin failed"⟩ ∧
    (secondFails.Run (beginFails 1)).panicked = none ∧
    handlersInvoked (secondFails.Run (beginFails 1)).calls = [] ∧
    commits (secondFails.Run (beginFails 1)).calls = [] ∧
    rollbacks (secondFails.Run (beginFails 1)).calls = [] ∧
    (secondFails.Run (beginFails 1)).o.sessionOpened = false :=
  ⟨Acquired.add _ (Acquired.get none),
    Run_begin_error secondFails (beginFails 1) ⟨"begin failed"⟩
      (Acquired.add _ (Acquired.get none)) (by decide)⟩

/-- C7: when begin succeeds, the handlers before position k return nil and the handler at
position k panics with `r`, no panic leaves `Run`; it returns a non-nil error whose message
is the `%v` rendering of `r`, invokes no handler after position k, calls `Rollback` exactly
once and never calls `Commit`. -/
theorem Run_recovers_panic (o : transaction) (master : Session)
    (pre : List TransactionHandler) (hk : TransactionHandler)
    (post : List TransactionHandler) (r : PanicValue)
    (hb : (o.target master).Begin = none)
    (hl : o.handlers = pre ++ hk :: post)
    (hpre : ∀ h ∈ pre, h (o.target master) = .ret none)
    (hkp : hk (o.target master) = .panics r) :
    (o.Run master).panicked = none ∧
    (∃ e, (o.Run master).err = some e ∧ e.msg = Sprintf_v r) ∧
    handlersInvoked (o.Run master).calls
      = (List.range (pre.length + 1)).map (fun i => (i, o.target master)) ∧
    rollbacks (o.Run master).calls = [o.target master] ∧
    commits (o.Run master).calls = [] := by
  cases hs : o.session with
  | none =>
    obtain ⟨ht, hbody⟩ := Run.body_created master o hs
    rw [ht] at hb hpre hkp
    rw [ht, transaction.Run, hbody, hb, hl,
      rangeHandlers_first_panic master pre hk post r 0 hpre hkp]
    simp [Run.deferred, Run.recover, Errorf_v, List.range_eq_range']
  | some s =>
    obtain ⟨ht, hbody⟩ := Run.body_bound master s o hs
    rw [ht] at hb hpre hkp
    rw [ht, transaction.Run, hbody, hb, hl,
      rangeHandlers_first_panic s pre hk post r 0 hpre hkp]
    cases hsc : o.sessionCreated <;>
      simp [Run.deferred, Run.recover, Errorf_v, List.range_eq_range', hs, hsc]

/-- Witness for C7: the second of three handlers panics with the string "boom". -/
theorem Run_recovers_panic_witness :
    (secondPanics.Run (okSession 1)).panicked = none ∧
    (∃ e, (secondPanics.Run (okSession 1)).err = some e ∧ e.msg = Sprintf_v (.str "boom")) ∧
    handlersInvoked (secondPanics.Run (okSession 1)).calls
      = (List.range ([okHandler].length + 1)).map
          (fun i => (i, secondPanics.target (okSession 1))) ∧
    rollbacks (secondPanics.Run (okSession 1)).calls = [secondPanics.target (okSession 1)] ∧
    commits (secondPanics.Run (okSession 1)).calls = [] :=
  Run_recovers_panic secondPanics (okSession 1) [okHandler] (panicHandler (.str "boom"))
    [okHandler] (.str "boom") (by decide) rfl (by decide) (by decide)

/-! ## Lemmas on `get` -/

/-- A lookup of a cached name returns the cached group and changes nothing. -/
theorem get_cached (xorm : NewEngineGroup) (o : connection) (attempts : List String)
    (name : String) (g : EngineGroup) (h : o.engines name = some g) :
    (o.get xorm attempts name).eg = some g ∧ (o.get xorm attempts name).o = o ∧
    (o.get xorm attempts name).attempts = attempts := by
  simp [connection.get, get.body, h]

/-- One lookup of any name keeps a cached entry and attempts no construction for its
name. -/
theorem get_keeps_entry (xorm : NewEngineGroup) (o : connection) (attempts : List String)
    (name other : String) (g : EngineGroup) (h : o.engines name = some g) :
    (o.get xorm attempts other).o.engines name = some g ∧
    (o.get xorm attempts other).attempts.count name = attempts.count name := by
  by_cases hn : other = name
  · subst hn
    obtain ⟨_, h2, h3⟩ := get_cached xorm o attempts other g h
    rw [h2, h3]
    exact ⟨h, rfl⟩
  · have hne : name ≠ other := fun e => hn e.symm
    cases he : o.engines other with
    | some eg => simp [connection.get, get.body, he, h]
    | none =>
      cases hc : o.configs other with
      | none => simp [connection.get, get.body, he, hc, h]
      | some c =>
        cases hx : xorm (attempts.length + 1) c.Driver c.Dsn with
        | some err =>
          simp [connection.get, get.body, he, hc, hx, h, List.count_singleton, hn]
        | none =>
          simp [connection.get, get.body, he, hc, hx, h, connection.store, hne,
            List.count_singleton, hn]

/-- Any sequence of lookups keeps a cached entry and attempts no construction for its
name. -/
theorem gets_keeps_entry (xorm : NewEngineGroup) (name : String) (g : EngineGroup)
    (between : List String) :
    ∀ (o : connection) (attempts : List String), o.engines name = some g →
      (o.gets xorm attempts between).1.engines name = some g ∧
      (o.gets xorm attempts between).2.count name = attempts.count name := by
  induction between with
  | nil => intro o attempts h; exact ⟨h, rfl⟩
  | cons n rest ih =>
    intro o attempts h
    obtain ⟨h1, h2⟩ := get_keeps_entry xorm o attempts name n g h
    obtain ⟨h3, h4⟩ := ih (o.get xorm attempts n).o (o.get xorm attempts n).attempts h1
    exact ⟨h3, h4.trans h2⟩

/-! ## Claims on `get` -/

/-- C8: when a lookup of `name` constructs a group `g` (no entry for `name`, a record for
it, and the construction succeeds), then after any sequence of further lookups of any names
the entry for `name` is still `g`, a lookup of `name` returns `g`, leaves the registry as it
is and attempts no construction, and no construction for `name` was attempted in
between. -/
theorem get_constructs_once (xorm : NewEngineGroup) (o : connection)
    (attempts : List String) (name : String) (c : Config) (between : List String)
    (hmiss : o.engines name = none) (hcfg : o.configs name = some c)
    (hok : xorm (attempts.length + 1) c.Driver c.Dsn = none) :
    ∃ g, (o.get xorm attempts name).eg = some g ∧
      (o.get xorm attempts name).attempts = attempts ++ [name] ∧
      (((o.get xorm attempts name).o.gets xorm
          (o.get xorm attempts name).attempts between).1.engines name = some g) ∧
      ((((o.get xorm attempts name).o.gets xorm
          (o.get xorm attempts name).attempts between).1.get xorm
        ((o.get xorm attempts name).o.gets xorm
          (o.get xorm attempts name).attempts between).2 name).eg = some g) ∧
      ((((o.get xorm attempts name).o.gets xorm
          (o.get xorm attempts name).attempts between).1.get xorm
        ((o.get xorm attempts name).o.gets xorm
          (o.get xorm attempts name).attempts between).2 name).attempts
        = ((o.get xorm attempts name).o.gets xorm
          (o.get xorm attempts name).attempts between).2) ∧
      (((o.get xorm attempts name).o.gets xorm
          (o.get xorm attempts name).attempts between).2.count name
        = (attempts ++ [name]).count name) := by
  have hfirst : ∃ g, (o.get xorm attempts name).eg = some g ∧
      (o.get xorm attempts name).attempts = attempts ++ [name] ∧
      (o.get xorm attempts name).o.engines name = some g := by
    simp [connection.get, get.body, hmiss, hcfg, hok, connection.store]
  obtain ⟨g, h1, h2, h3⟩ := hfirst
  obtain ⟨h4, h5⟩ := gets_keeps_entry xorm name g between
    (o.get xorm attempts name).o (o.get xorm attempts name).attempts h3
  obtain ⟨h6, _, h8⟩ := get_cached xorm
    ((o.get xorm attempts name).o.gets xorm (o.get xorm attempts name).attempts between).1
    ((o.get xorm attempts name).o.gets xorm (o.get xorm attempts name).attempts between).2
    name g h4
  refine ⟨g, h1, h2, h4, h6, h8, ?_⟩
  rw [h5, h2]

/-- Witness for C8: "db" is built on first use; after lookups of "other", "db" and
"other" again it is still the group returned first. -/
theorem get_constructs_once_witness :
    ∃ g, (dbOnly.get alwaysBuilds [] "db").eg = some g ∧
      (dbOnly.get alwaysBuilds [] "db").attempts = [] ++ ["db"] ∧
      (((dbOnly.get alwaysBuilds [] "db").o.gets alwaysBuilds
          (dbOnly.get alwaysBuilds [] "db").attempts
          ["other", "db", "other"]).1.engines "db" = some g) ∧
      ((((dbOnly.get alwaysBuilds [] "db").o.gets alwaysBuilds
          (dbOnly.get alwaysBuilds [] "db").attempts ["other", "db", "other"]).1.get
        alwaysBuilds
        ((dbOnly.get alwaysBuilds [] "db").o.gets alwaysBuilds
          (dbOnly.get alwaysBuilds [] "db").attempts ["other", "db", "other"]).2 "db").eg
        = some g) ∧
      ((((dbOnly.get alwaysBuilds [] "db").o.gets alwaysBuilds
          (dbOnly.get alwaysBuilds [] "db").attempts ["other", "db", "other"]).1.get
        alwaysBuilds
        ((dbOnly.get alwaysBuilds [] "db").o.gets alwaysBuilds
          (dbOnly.get alwaysBuilds [] "db").attempts ["other", "db", "other"]).2 "db").attempts
        = ((dbOnly.get alwaysBuilds [] "db").o.gets alwaysBuilds
          (dbOnly.get alwaysBuilds [] "db").attempts ["other", "db", "other"]).2) ∧
      (((dbOnly.get alwaysBuilds [] "db").o.gets alwaysBuilds
          (dbOnly.get alwaysBuilds [] "db").attempts ["other", "db", "other"]).2.count "db"
        = ([] ++ ["db"]).count "db") :=
  get_constructs_once alwaysBuilds dbOnly [] "db" ordersConfig ["other", "db", "other"]
    (by decide) (by decide) (by decide)

/-- C9: a lookup of a name that has neither a record nor a cached group returns
the default group (a non-nil pointer), attempts no construction and leaves the registry
unchanged; any two such lookups, of the same or of different names, in any registry
states, return the same group. -/
theorem get_unconfigured (xorm : NewEngineGroup) (o : connection) (attempts : List String)
    (name : String) (xorm2 : NewEngineGroup) (o2 : connection) (attempts2 : List String)
    (name2 : String)
    (hc : o.configs name = none) (he : o.engines name = none)
    (hc2 : o2.configs name2 = none) (he2 : o2.engines name2 = none) :
    (o.get xorm attempts name).eg = some defaultEngineGroup ∧
    (o.get xorm attempts name).attempts = attempts ∧
    (o.get xorm attempts name).o = o ∧
    (o.get xorm attempts name).eg = (o2.get xorm2 attempts2 name2).eg := by
  simp [connection.get, get.body, hc, he, hc2, he2]

/-- Witness for C9: "a" before any lookup and "b" after "db" was built. -/
theorem get_unconfigured_witness :
    (dbOnly.get alwaysBuilds [] "a").eg = some defaultEngineGroup ∧
    (dbOnly.get alwaysBuilds [] "a").attempts = [] ∧
    (dbOnly.get alwaysBuilds [] "a").o = dbOnly ∧
    (dbOnly.get alwaysBuilds [] "a").eg
      = ((dbOnly.get alwaysBuilds [] "db").o.get alwaysBuilds ["db"] "b").eg :=
  get_unconfigured alwaysBuilds dbOnly [] "a" alwaysBuilds (dbOnly.get alwaysBuilds [] "db").o
    ["db"] "b" (by decide) (by decide) (by decide) (by decide)

/-- C10: when the construction for a configured, not yet cached name fails, the lookup
returns the default group and leaves the registry unchanged, with no entry for the name;
the next lookup of the name attempts the construction again and, when that attempt
succeeds, returns the newly built group, not the default one, and caches it. -/
theorem get_failure_not_cached (xorm : NewEngineGroup) (o : connection)
    (attempts : List String) (name : String) (c : Config) (err : Error)
    (hmiss : o.engines name = none) (hcfg : o.configs name = some c)
    (hfail : xorm (attempts.length + 1) c.Driver c.Dsn = some err) :
    (o.get xorm attempts name).eg = some defaultEngineGroup ∧
    (o.get xorm attempts name).o = o ∧
    (o.get xorm attempts name).o.engines name = none ∧
    (o.get xorm attempts name).attempts = attempts ++ [name] ∧
    ((o.get xorm attempts name).o.get xorm (o.get xorm attempts name).attempts name).attempts
      = attempts ++ [name] ++ [name] ∧
    (xorm (attempts.length + 2) c.Driver c.Dsn = none →
      ∃ g, ((o.get xorm attempts name).o.get xorm
              (o.get xorm attempts name).attempts name).eg = some g ∧
        g ≠ defaultEngineGroup ∧
        ((o.get xorm attempts name).o.get xorm
              (o.get xorm attempts name).attempts name).o.engines name = some g) := by
  have h1 : o.get xorm attempts name = ⟨some defaultEngineGroup, o, attempts ++ [name]⟩ := by
    simp [connection.get, get.body, hmiss, hcfg, hfail]
  rw [h1]
  refine ⟨rfl, rfl, hmiss, rfl, ?_, ?_⟩
  · cases hx : xorm (attempts.length + 2) c.Driver c.Dsn <;>
      simp [connection.get, get.body, hmiss, hcfg, hx]
  · intro hx
    refine ⟨(((((((EngineGroup.new (attempts.length + 2) c.Driver c.Dsn).SetMapper
      c.GetMapper).SetMaxOpenConns c.MaxOpen).SetMaxIdleConns c.MaxIdle).SetConnMaxLifetime
      c.maxLifetime).SetLogger c).ShowSQL c.ShowSql).EnableSessionID c.EnableSessionId,
      ?_, ?_, ?_⟩
    · simp [connection.get, get.body, hmiss, hcfg, hx]
    · intro h
      have hid := congrArg EngineGroup.id h
      simp [EngineGroup.EnableSessionID, EngineGroup.ShowSQL, EngineGroup.SetLogger,
        EngineGroup.SetConnMaxLifetime, EngineGroup.SetMaxIdleConns,
        EngineGroup.SetMaxOpenConns, EngineGroup.SetMapper, EngineGroup.new,
        defaultEngineGroup] at hid
    · simp [connection.get, get.body, hmiss, hcfg, hx, connection.store]

/-- Witness for C10: the first construction for "db" fails, the second succeeds. -/
theorem get_failure_not_cached_witness :
    (dbOnly.get firstDialFails [] "db").eg = some defaultEngineGroup ∧
    ((dbOnly.get firstDialFails [] "db").o.get firstDialFails
        (dbOnly.get firstDialFails [] "db").attempts "db").attempts = [] ++ ["db"] ++ ["db"] ∧
    (∃ g, ((dbOnly.get firstDialFails [] "db").o.get firstDialFails
              (dbOnly.get firstDialFails [] "db").attempts "db").eg = some g ∧
        g ≠ defaultEngineGroup ∧
        ((dbOnly.get firstDialFails [] "db").o.get firstDialFails
              (dbOnly.get firstDialFails [] "db").attempts "db").o.engines "db" = some g) :=
  ⟨(get_failure_not_cached firstDialFails dbOnly [] "db" ordersConfig ⟨"dial failed"⟩
      (by decide) (by decide) (by decide)).1,
   (get_failure_not_cached firstDialFails dbOnly [] "db" ordersConfig ⟨"dial failed"⟩
      (by decide) (by decide) (by decide)).2.2.2.2.1,
   (get_failure_not_cached firstDialFails dbOnly [] "db" ordersConfig ⟨"dial failed"⟩
      (by decide) (by decide) (by decide)).2.2.2.2.2 (by decide)⟩

/-! ## Claims on the pooling discipline -/

/-- C11 (as stated, refuted): it is not the case that after `Release` both flags are
false for every executor state.  After a `Run` that created and opened a session both flags
are set, and `Release` leaves them set. -/
theorem Release_keeps_flags_example :
    ¬ (∀ o : transaction, o.Release.handlers.length = 0 ∧ o.Release.session = none ∧
        o.Release.sessionCreated = false ∧ o.Release.sessionOpened = false) := by
  intro h
  have h1 := (h usedExecutor).2.2.1
  revert h1
  decide

/-- C11 (amended): for every executor state, after `Release` the handler list is empty and
the session reference is cleared; the flags `sessionCreated` and `sessionOpened` keep the
values they had. -/
theorem Release_clears_handlers_and_session (o : transaction) :
    o.Release.handlers = [] ∧ o.Release.session = none ∧
    o.Release.sessionCreated = o.sessionCreated ∧
    o.Release.sessionOpened = o.sessionOpened := by
  simp [transaction.Release, transaction.clean]

/-- C12: for every executor state, `Release` followed by re-acquisition of the instance
through `Transaction()` yields an executor with no handlers, no bound session and both flags
false; so does `Transaction()` when the pool is empty. -/
theorem Transaction_yields_reset_state (o : transaction) :
    (Transaction (some o.Release)).handlers = [] ∧
    (Transaction (some o.Release)).session = none ∧
    (Transaction (some o.Release)).sessionCreated = false ∧
    (Transaction (some o.Release)).sessionOpened = false ∧
    (Transaction none).handlers = [] ∧ (Transaction none).session = none ∧
    (Transaction none).sessionCreated = false ∧ (Transaction none).sessionOpened = false ∧
    usedExecutor.handlers.length = 3 ∧ usedExecutor.session = some (okSession 1) ∧
    usedExecutor.sessionCreated = true ∧ usedExecutor.sessionOpened = true := by
  refine ⟨?_, ?_, ?_, ?_, ?_, ?_, ?_, ?_, ?_, ?_, ?_, ?_⟩ <;>
    first
    | decide
    | simp [Transaction, transaction.acquire, transaction.Release, transaction.clean,
        transaction.zero, transaction.init]

/-- C18: `Add(h1..hm)` turns the handler list `L` into `L` followed by `h1..hm`: the length
grows by `m`, the entries of `L` keep their positions, a handler given twice is entered
twice, and `Add` with no arguments changes nothing; the session and both flags are
untouched. -/
theorem Add_appends (o : transaction) (hs : List TransactionHandler) (h : TransactionHandler) :
    (o.Add hs).handlers = o.handlers ++ hs ∧
    (o.Add hs).handlers.length = o.handlers.length + hs.length ∧
    (o.Add hs).handlers.take o.handlers.length = o.handlers ∧
    (o.Add [h, h]).handlers = o.handlers ++ [h, h] ∧
    o.Add [] = o ∧
    (o.Add hs).session = o.session ∧
    (o.Add hs).sessionCreated = o.sessionCreated ∧
    (o.Add hs).sessionOpened = o.sessionOpened := by
  refine ⟨rfl, by simp [transaction.Add], by simp [transaction.Add], rfl,
    by simp [transaction.Add], rfl, rfl, rfl⟩

/-- A `Run` keeps a session that is bound when it starts, never leaves the session
reference nil, and never clears a flag that is set. -/
theorem Run_keeps_session_and_flags (o : transaction) (master : Session) :
    (o.Run master).o.session = some (o.target master) ∧
    (o.sessionCreated = true → (o.Run master).o.sessionCreated = true) ∧
    (o.sessionOpened = true → (o.Run master).o.sessionOpened = true) := by
  cases hs : o.session with
  | none =>
    obtain ⟨ht, hbody⟩ := Run.body_created master o hs
    rw [ht, transaction.Run, hbody]
    cases hb : master.Begin with
    | some e =>
      cases hso : o.sessionOpened <;> cases master.Rollback <;> simp [Run.deferred, Run.recover]
    | none =>
      cases h : (Run.recover (rangeHandlers master o.handlers 0 none).err
        (rangeHandlers master o.handlers 0 none).recovered) <;> simp [Run.deferred, h]
  | some s =>
    obtain ⟨ht, hbody⟩ := Run.body_bound master s o hs
    rw [ht, transaction.Run, hbody]
    cases hb : s.Begin with
    | some e =>
      cases hso : o.sessionOpened <;> cases hsc : o.sessionCreated <;>
        simp [Run.deferred, Run.recover, hs, hso, hsc]
    | none =>
      cases hsc : o.sessionCreated <;>
      cases h : (Run.recover (rangeHandlers s o.handlers 0 none).err
        (rangeHandlers s o.handlers 0 none).recovered) <;>
        simp [Run.deferred, h, hs, hsc]

/-- Every call the handler loop records is a handler call. -/
theorem rangeHandlers_calls_are_handlers (s : Session) (hs : List TransactionHandler) :
    ∀ (i : Nat) (err : Option Error), ∀ c ∈ (rangeHandlers s hs i err).calls,
      ∃ j, c = Call.Handler j s := by
  induction hs with
  | nil => intro i err c hc; simp [rangeHandlers] at hc
  | cons h rest ih =>
    intro i err c hc
    unfold rangeHandlers at hc
    cases hh : h s with
    | panics r =>
      simp only [hh, List.mem_singleton] at hc
      exact ⟨i, hc⟩
    | ret e =>
      cases e with
      | some e =>
        simp only [hh, List.mem_singleton] at hc
        exact ⟨i, hc⟩
      | none =>
        simp only [hh, List.mem_cons] at hc
        rcases hc with hc | hc
        · exact ⟨i, hc⟩
        · exact ih (i + 1) none c hc

/-- A `Run` on an executor that already holds a session and has both flags set: no
session is created, `Close` is called on the held session, and a failing begin is followed
by `Rollback`. -/
theorem Run_on_used_executor (o : transaction) (master s : Session)
    (hs : o.session = some s) (hsc : o.sessionCreated = true)
    (hso : o.sessionOpened = true) :
    Call.Master ∉ (o.Run master).calls ∧
    closes (o.Run master).calls = [s] ∧
    (∀ e, s.Begin = some e →
      (o.Run master).err = some e ∧ rollbacks (o.Run master).calls = [s] ∧
      commits (o.Run master).calls = [] ∧ handlersInvoked (o.Run master).calls = []) := by
  obtain ⟨_, hbody⟩ := Run.body_bound master s o hs
  have hc := rangeHandlers_calls_only s o.handlers 0 none
  have hm : Call.Master ∉ (rangeHandlers s o.handlers 0 none).calls := by
    intro hmem
    obtain ⟨j, hj⟩ := rangeHandlers_calls_are_handlers s o.handlers 0 none _ hmem
    cases hj
  rw [transaction.Run, hbody]
  cases hb : s.Begin with
  | some e => simp [Run.deferred, Run.recover, hs, hsc, hso]
  | none =>
    cases h : (Run.recover (rangeHandlers s o.handlers 0 none).err
      (rangeHandlers s o.handlers 0 none).recovered) <;>
      simp [Run.deferred, h, hs, hsc, hm, hc.2.2.1]

/-- C20: `Run` clears neither the session nor the flags.  On an executor obtained from
`Transaction()` with no session supplied, after a first `Run` in which begin succeeded the
session that `Run` created (and closed) is still bound and both flags are set; a second
`Run` on the instance creates no session, calls `Close` once more on that same session
and, when its own begin fails, still calls `Rollback` on it (and invokes no handler). -/
theorem Run_again_reuses_session (o : transaction) (master master2 next : Session)
    (ho : Acquired o) (hs : o.session = none) (hb : master.Begin = none) :
    (o.Run master).o.session = some master ∧
    (o.Run master).o.sessionCreated = true ∧
    (o.Run master).o.sessionOpened = true ∧
    closes (o.Run master).calls = [master] ∧
    Call.Master ∉ (((o.Run master).o.again next).Run master2).calls ∧
    closes (((o.Run master).o.again next).Run master2).calls
      = [{ next with id := master.id }] ∧
    (∀ e, next.Begin = some e →
      (((o.Run master).o.again next).Run master2).err = some e ∧
      rollbacks (((o.Run master).o.again next).Run master2).calls
        = [{ next with id := master.id }] ∧
      commits (((o.Run master).o.again next).Run master2).calls = [] ∧
      handlersInvoked (((o.Run master).o.again next).Run master2).calls = []) := by
  have hflags := ho.flags
  have hclose : closes (o.Run master).calls = [master] := by
    obtain ⟨_, hbody⟩ := Run.body_created master o hs
    have hc := rangeHandlers_calls_only master o.handlers 0 none
    rw [transaction.Run, hbody, hb]
    cases h : (Run.recover (rangeHandlers master o.handlers 0 none).err
      (rangeHandlers master o.handlers 0 none).recovered) <;>
      simp [Run.deferred, h, hc.2.2.1]
  have h1 : (o.Run master).o
      = { o with session := some master, sessionCreated := true, sessionOpened := true } := by
    obtain ⟨_, hbody⟩ := Run.body_created master o hs
    rw [transaction.Run, hbody, hb]
    cases h : (Run.recover (rangeHandlers master o.handlers 0 none).err
      (rangeHandlers master o.handlers 0 none).recovered) <;> simp [Run.deferred, h]
  have h2 : ((o.Run master).o.again next).session = some { next with id := master.id } := by
    rw [h1]; rfl
  have h3 : ((o.Run master).o.again next).sessionCreated = true := by rw [h1]; rfl
  have h4 : ((o.Run master).o.again next).sessionOpened = true := by rw [h1]; rfl
  obtain ⟨k1, k2, k3⟩ := Run_on_used_executor ((o.Run master).o.again next) master2
    { next with id := master.id } h2 h3 h4
  exact ⟨by rw [h1], by rw [h1], by rw [h1], hclose, k1, k2, k3⟩

/-- Witness for C20: the second `Run` finds begin failing on the session the first one
created. -/
theorem Run_again_reuses_session_witness :
    Acquired secondFails ∧ secondFails.session = none ∧
    closes (secondFails.Run (okSession 1)).calls = [okSession 1] ∧
    Call.Master ∉ (((secondFails.Run (okSession 1)).o.again (beginFails 0)).Run
      (okSession 2)).calls ∧
    closes (((secondFails.Run (okSession 1)).o.again (beginFails 0)).Run
      (okSession 2)).calls = [beginFails 1] ∧
    rollbacks (((secondFails.Run (okSession 1)).o.again (beginFails 0)).Run
      (okSession 2)).calls = [beginFails 1] :=
  ⟨Acquired.add _ (Acquired.get none), rfl,
    (Run_again_reuses_session secondFails (okSession 1) (okSession 2) (beginFails 0)
      (Acquired.add _ (Acquired.get none)) rfl (by decide)).2.2.2.1,
    (Run_again_reuses_session secondFails (okSession 1) (okSession 2) (beginFails 0)
      (Acquired.add _ (Acquired.get none)) rfl (by decide)).2.2.2.2.1,
    (Run_again_reuses_session secondFails (okSession 1) (okSession 2) (beginFails 0)
      (Acquired.add _ (Acquired.get none)) rfl (by decide)).2.2.2.2.2.1,
    ((Run_again_reuses_session secondFails (okSession 1) (okSession 2) (beginFails 0)
      (Acquired.add _ (Acquired.get none)) rfl (by decide)).2.2.2.2.2.2
        ⟨"begin failed"⟩ rfl).2.1⟩

/-! ## Lemmas on normalisation -/

/-- Two records with the same fields are the same record. -/
theorem Config.eq_of_fields (a b : Config)
    (h1 : a.Driver = b.Driver) (h2 : a.Dsn = b.Dsn)
    (h3 : a.EnableSessionId = b.EnableSessionId) (h4 : a.ShowSql = b.ShowSql)
    (h5 : a.Mapper = b.Mapper) (h6 : a.MaxIdle = b.MaxIdle)
    (h7 : a.MaxLifetime = b.MaxLifetime) (h8 : a.MaxOpen = b.MaxOpen)
    (h9 : a.maxLifetime = b.maxLifetime) (h10 : a.mapper = b.mapper)
    (h11 : a.username = b.username) (h12 : a.hostname = b.hostname)
    (h13 : a.schema = b.schema) : a = b := by
  cases a; cases b; simp_all

/-- The lower-case form of an ASCII rune is its own lower-case form. -/
theorem unicode.ToLower_ascii_idem (table : Char → Char) (r : Char) (h : r.toNat ≤ 127) :
    unicode.ToLower table (unicode.ToLower table r) = unicode.ToLower table r := by
  by_cases hu : 65 ≤ r.toNat ∧ r.toNat ≤ 90
  · have h1 : unicode.ToLower table r = Char.ofNat (r.toNat + 32) := by
      simp [unicode.ToLower, h, hu]
    rw [h1]
    obtain ⟨n, hn⟩ : ∃ n, r.toNat = n := ⟨_, rfl⟩
    rw [hn] at hu ⊢
    obtain ⟨hu1, hu2⟩ := hu
    interval_cases n <;> rfl
  · have h1 : unicode.ToLower table r = r := by
      simp only [unicode.ToLower, h, hu, if_true, if_false]
    rw [h1, h1]

/-- When the case table is stable on its own results, so is `unicode.ToLower`. -/
theorem unicode.ToLower_rune_idem (table : Char → Char)
    (htable : ∀ r : Char, 128 ≤ r.toNat → unicode.ToLower table (table r) = table r)
    (r : Char) :
    unicode.ToLower table (unicode.ToLower table r) = unicode.ToLower table r := by
  by_cases h : r.toNat ≤ 127
  · exact unicode.ToLower_ascii_idem table r h
  · have h1 : unicode.ToLower table r = table r := by
      simp only [unicode.ToLower, h, if_false]
    rw [h1]
    exact htable r (by omega)

/-- When the case table is stable on its own results, so is `strings.ToLower`. -/
theorem strings.ToLower_idem (table : Char → Char)
    (htable : ∀ r : Char, 128 ≤ r.toNat → unicode.ToLower table (table r) = table r)
    (s : String) :
    strings.ToLower table (strings.ToLower table s) = strings.ToLower table s := by
  have h : (unicode.ToLower table ∘ unicode.ToLower table) = unicode.ToLower table :=
    funext (fun r => unicode.ToLower_rune_idem table htable r)
  simp [strings.ToLower, h]

/-- The lower-case form of a string is empty only for the empty string. -/
theorem strings.ToLower_eq_empty (table : Char → Char) (s : String) :
    strings.ToLower table s = "" ↔ s = "" := by
  constructor
  · intro h
    have h1 := congrArg String.data h
    simp only [strings.ToLower] at h1
    have h2 : s.data = [] := by simpa using h1
    cases s; simp_all
  · intro h; subst h; rfl

/-- The effect of `parseDatabaseSourceName` in terms of `dsnParts`. -/
theorem Config.parseDatabaseSourceName_eq (o : Config) :
    o.parseDatabaseSourceName =
      match Config.dsnParts o.Dsn with
      | some (u, h, s) => { o with username := u, hostname := h, schema := s }
      | none => o := by
  unfold Config.parseDatabaseSourceName Config.dsnParts
  cases hd : o.Dsn with
  | nil => rfl
  | cons s rest =>
    by_cases h1 : strings.TrimSpace s = ""
    · simp [h1]
    · by_cases h2 : (regexpConfigDsn.FindStringSubmatch (strings.TrimSpace s)).length = 5
      · simp [h1, h2]
      · simp [h1, h2]

/-- The effect of `parseConnectionMapper` in terms of `selectMapper`. -/
theorem Config.parseConnectionMapper_eq (o : Config) :
    o.parseConnectionMapper = { o with mapper := some (Config.selectMapper o.Mapper) } := by
  unfold Config.parseConnectionMapper Config.selectMapper
  split_ifs <;> rfl

/-- The effect of `Default`: the filled record, with the parts read off the first
data-source string when there are any. -/
theorem Config.Default_eq (table : Char → Char) (o : Config) :
    Config.Default table o =
      match Config.dsnParts o.Dsn with
      | some (u, h, s) =>
        { Config.filled table o with username := u, hostname := h, schema := s }
      | none => Config.filled table o := by
  obtain ⟨Driver, Dsn, E, S, Mapper, MaxIdle, MaxLifetime, MaxOpen, ml, mp, u, h, sc⟩ := o
  by_cases h1 : Driver = "" <;> by_cases h2 : Mapper = "" <;> by_cases h3 : MaxIdle = 0 <;>
    by_cases h4 : MaxLifetime = 0 <;> by_cases h5 : MaxOpen = 0 <;>
    simp [Config.Default, Config.parseDatabaseSourceName_eq, Config.parseConnectionMapper_eq,
      Config.filled, h1, h2, h3, h4, h5]

/-- Filling a filled record changes nothing. -/
theorem Config.filled_filled (table : Char → Char)
    (htable : ∀ r : Char, 128 ≤ r.toNat → unicode.ToLower table (table r) = table r)
    (o : Config) :
    Config.filled table (Config.filled table o) = Config.filled table o := by
  obtain ⟨Driver, Dsn, E, S, Mapper, MaxIdle, MaxLifetime, MaxOpen, ml, mp, u, h, sc⟩ := o
  have hm := strings.ToLower_idem table htable Mapper
  have he := strings.ToLower_eq_empty table Mapper
  have hd : strings.ToLower table "snake" = "snake" := rfl
  by_cases h1 : Driver = "" <;> by_cases h2 : Mapper = "" <;> by_cases h3 : MaxIdle = 0 <;>
    by_cases h4 : MaxLifetime = 0 <;> by_cases h5 : MaxOpen = 0 <;>
    simp [Config.filled, h1, h2, h3, h4, h5, hm, he, hd, DefaultDriver, DefaultMapper,
      DefaultMaxIdle, DefaultMaxLifetime, DefaultMaxOpen]

/-- The data-source list of a filled record is the one it was given. -/
theorem Config.filled_Dsn (table : Char → Char) (o : Config) :
    (Config.filled table o).Dsn = o.Dsn := rfl

/-- The value of `Default` when the first data-source string yields parts. -/
theorem Config.Default_of_parts (table : Char → Char) (o : Config) (u h s : String)
    (hp : Config.dsnParts o.Dsn = some (u, h, s)) :
    Config.Default table o
      = { Config.filled table o with username := u, hostname := h, schema := s } := by
  rw [Config.Default_eq, hp]

/-- The value of `Default` when the first data-source string yields nothing. -/
theorem Config.Default_of_none (table : Char → Char) (o : Config)
    (hp : Config.dsnParts o.Dsn = none) :
    Config.Default table o = Config.filled table o := by
  rw [Config.Default_eq, hp]

/-! ## Claims on `Default` -/

/-- C13: `Default(Default(c))` equals `Default(c)` on every field, public and derived,
for every record `c`, given that the case table of package unicode is stable on its own
results (lower-casing the lower-case form of a non-ASCII rune changes nothing). -/
theorem Default_idempotent (table : Char → Char)
    (htable : ∀ r : Char, 128 ≤ r.toNat → unicode.ToLower table (table r) = table r)
    (c : Config) :
    Config.Default table (Config.Default table c) = Config.Default table c := by
  have hf := Config.filled_filled table htable c
  cases hp : Config.dsnParts c.Dsn with
  | none =>
    rw [Config.Default_of_none table c hp,
      Config.Default_of_none table (Config.filled table c) hp, hf]
  | some parts =>
    obtain ⟨u, h, s⟩ := parts
    rw [Config.Default_of_parts table c u h s hp,
      Config.Default_of_parts table
        { Config.filled table c with username := u, hostname := h, schema := s } u h s hp]
    calc ({ Config.filled table
              { Config.filled table c with username := u, hostname := h, schema := s } with
            username := u, hostname := h, schema := s } : Config)
        = { Config.filled table (Config.filled table c) with
            username := u, hostname := h, schema := s } := rfl
      _ = { Config.filled table c with username := u, hostname := h, schema := s } := by
          rw [hf]

/-- Witness for C13: the scenario record, with a case table that maps every non-ASCII rune
to itself. -/
theorem Default_idempotent_witness :
    Config.Default id (Config.Default id ordersInput) = Config.Default id ordersInput :=
  Default_idempotent id
    (fun r hr => by
      have h : ¬ r.toNat ≤ 127 := by omega
      simp only [unicode.ToLower, id, h, if_false])
    ordersInput

/-- C14: after `Default`, driver, max-idle, max-lifetime and max-open hold their input
value when it was set and the defaults "mysql", 2, 60 and 50 otherwise; the mapper holds
"snake" when it was empty and the lower-case form of its input otherwise; so the three
bounds are non-zero and driver and mapper are non-empty; the data-source list and the
two flags are unchanged. -/
theorem Default_fills_unset_fields (table : Char → Char) (c : Config) :
    (Config.Default table c).Driver = (if c.Driver = "" then "mysql" else c.Driver) ∧
    (Config.Default table c).Mapper
      = (if c.Mapper = "" then "snake" else strings.ToLower table c.Mapper) ∧
    (Config.Default table c).MaxIdle = (if c.MaxIdle = 0 then 2 else c.MaxIdle) ∧
    (Config.Default table c).MaxLifetime
      = (if c.MaxLifetime = 0 then 60 else c.MaxLifetime) ∧
    (Config.Default table c).MaxOpen = (if c.MaxOpen = 0 then 50 else c.MaxOpen) ∧
    (Config.Default table c).MaxIdle ≠ 0 ∧ (Config.Default table c).MaxLifetime ≠ 0 ∧
    (Config.Default table c).MaxOpen ≠ 0 ∧
    (Config.Default table c).Driver ≠ "" ∧ (Config.Default table c).Mapper ≠ "" ∧
    (Config.Default table c).Dsn = c.Dsn ∧
    (Config.Default table c).EnableSessionId = c.EnableSessionId ∧
    (Config.Default table c).ShowSql = c.ShowSql := by
  have he := strings.ToLower_eq_empty table c.Mapper
  have hd : strings.ToLower table "snake" = "snake" := rfl
  rw [Config.Default_eq table c]
  cases hp : Config.dsnParts c.Dsn <;>
    by_cases h1 : c.Driver = "" <;> by_cases h2 : c.Mapper = "" <;>
    by_cases h3 : c.MaxIdle = 0 <;> by_cases h4 : c.MaxLifetime = 0 <;>
    by_cases h5 : c.MaxOpen = 0 <;>
    simp [Config.filled, h1, h2, h3, h4, h5, he, hd, DefaultDriver, DefaultMapper,
      DefaultMaxIdle, DefaultMaxLifetime, DefaultMaxOpen]

/-- C15 (as stated, refuted): it is not the case that an empty mapper selector resolves
to the identity strategy.  For the record with nothing set, `Default` resolves the
snake-case strategy. -/
theorem Default_empty_mapper_not_identity :
    ¬ (∀ (table : Char → Char) (c : Config), c.Mapper = "" →
        (Config.Default table c).mapper = some names.Mapper.SameMapper) := by
  intro h
  have h1 := h id (mapperInput "") rfl
  revert h1
  decide

/-- C15 (amended): for every record whose mapper selector is empty, `Default` sets the
selector to "snake" and resolves the snake-case strategy. -/
theorem Default_empty_mapper_is_snake (table : Char → Char) (c : Config)
    (hm : c.Mapper = "") :
    (Config.Default table c).Mapper = "snake" ∧
    (Config.Default table c).mapper = some names.Mapper.SnakeMapper := by
  have hd : strings.ToLower table "snake" = "snake" := rfl
  rw [Config.Default_eq table c]
  cases hp : Config.dsnParts c.Dsn <;>
    simp [Config.filled, hm, hd, DefaultMapper, Config.selectMapper]

/-- Witness for C15 (amended): the record with nothing set. -/
theorem Default_empty_mapper_is_snake_witness :
    (mapperInput "").Mapper = "" ∧
    (Config.Default id (mapperInput "")).Mapper = "snake" ∧
    (Config.Default id (mapperInput "")).mapper = some names.Mapper.SnakeMapper :=
  ⟨rfl, Default_empty_mapper_is_snake id (mapperInput "") rfl⟩

/-- C16: for every record with a non-empty mapper selector `s`, `Default` resolves the
snake-case strategy exactly when the lower-case form of `s` is "snake", the gonic strategy
exactly when it is "gonic", and the identity strategy in every other case. -/
theorem Default_selects_mapper (table : Char → Char) (c : Config) (hm : c.Mapper ≠ "") :
    ((Config.Default table c).mapper = some names.Mapper.SnakeMapper
      ↔ strings.ToLower table c.Mapper = "snake") ∧
    ((Config.Default table c).mapper = some names.Mapper.GonicMapper
      ↔ strings.ToLower table c.Mapper = "gonic") ∧
    ((Config.Default table c).mapper = some names.Mapper.SameMapper
      ↔ (strings.ToLower table c.Mapper ≠ "snake" ∧
          strings.ToLower table c.Mapper ≠ "gonic")) := by
  rw [Config.Default_eq table c]
  have hsg : ("snake" : String) ≠ "gonic" := by decide
  cases hp : Config.dsnParts c.Dsn <;>
    by_cases h1 : strings.ToLower table c.Mapper = "snake" <;>
    by_cases h2 : strings.ToLower table c.Mapper = "gonic" <;>
    simp_all [Config.filled, Config.selectMapper]

/-- Witness for C16: the selectors "SNAKE", "Gonic", " snake" and "camel". -/
theorem Default_selects_mapper_witness :
    (Config.Default id (mapperInput "SNAKE")).mapper = some names.Mapper.SnakeMapper ∧
    (Config.Default id (mapperInput "Gonic")).mapper = some names.Mapper.GonicMapper ∧
    (Config.Default id (mapperInput " snake")).mapper = some names.Mapper.SameMapper ∧
    (Config.Default id (mapperInput "camel")).mapper = some names.Mapper.SameMapper :=
  ⟨(Default_selects_mapper id (mapperInput "SNAKE") (by decide)).1.2 rfl,
   (Default_selects_mapper id (mapperInput "Gonic") (by decide)).2.1.2 rfl,
   (Default_selects_mapper id (mapperInput " snake") (by decide)).2.2.2 (by decide),
   (Default_selects_mapper id (mapperInput "camel") (by decide)).2.2.2 (by decide)⟩

/-! ## Lemmas on the pattern -/

/-- A text that starts with a literal is the literal followed by what `literal` returns. -/
theorem regexpConfigDsn.literal_sound (lit : String) (cs rest : List Char)
    (h : regexpConfigDsn.literal lit cs = some rest) : cs = lit.data ++ rest := by
  unfold regexpConfigDsn.literal at h
  by_cases hp : lit.data.isPrefixOf cs = true
  · simp only [hp, if_true, Option.some.injEq] at h
    obtain ⟨t, ht⟩ := List.isPrefixOf_iff_prefix.mp hp
    subst ht
    simpa using h
  · simp [hp] at h

/-- What `afterPassword` returns are the host and schema parts of a text of the form
`@tcp(host)/schema...`. -/
theorem regexpConfigDsn.afterPassword_sound (cs host schema : List Char)
    (h : regexpConfigDsn.afterPassword cs = some (host, schema)) :
    host ≠ [] ∧ schema ≠ [] ∧
    (∀ c ∈ host, regexpConfigDsn.notParen c = true) ∧
    (∀ c ∈ schema, regexpConfigDsn.nameChar c = true) ∧
    ∃ rest, cs = "@tcp(".data ++ host ++ ")/".data ++ schema ++ rest := by
  unfold regexpConfigDsn.afterPassword at h
  cases h1 : regexpConfigDsn.literal "@tcp(" cs with
  | none => simp [h1] at h
  | some r1 =>
    simp only [h1] at h
    by_cases h2 : r1.takeWhile regexpConfigDsn.notParen = []
    · simp [h2] at h
    · simp only [h2, if_false] at h
      cases h3 : regexpConfigDsn.literal ")/" (r1.dropWhile regexpConfigDsn.notParen) with
      | none => simp [h3] at h
      | some r2 =>
        simp only [h3] at h
        by_cases h4 : r2.takeWhile regexpConfigDsn.nameChar = []
        · simp [h4] at h
        · simp only [h4, if_false, Option.some.injEq, Prod.mk.injEq] at h
          obtain ⟨hh, hs⟩ := h
          subst hh hs
          refine ⟨h2, h4, fun c hc => List.mem_takeWhile_imp hc,
            fun c hc => List.mem_takeWhile_imp hc, r2.dropWhile regexpConfigDsn.nameChar, ?_⟩
          have e1 := regexpConfigDsn.literal_sound _ _ _ h1
          have e3 := regexpConfigDsn.literal_sound _ _ _ h3
          have e2 : r1 = r1.takeWhile regexpConfigDsn.notParen
              ++ r1.dropWhile regexpConfigDsn.notParen :=
            (List.takeWhile_append_dropWhile _ _).symm
          have e4 : r2 = r2.takeWhile regexpConfigDsn.nameChar
              ++ r2.dropWhile regexpConfigDsn.nameChar :=
            (List.takeWhile_append_dropWhile _ _).symm
          rw [e1]
          conv_lhs => rw [e2, e3]
          conv_lhs => rw [e4]
          simp [List.append_assoc]

/-- What `password` returns are the password, host and schema parts of a text of the
form `password@tcp(host)/schema...`. -/
theorem regexpConfigDsn.password_sound :
    ∀ (cs pass host schema : List Char),
      regexpConfigDsn.password cs = some (pass, host, schema) →
      pass ≠ [] ∧ host ≠ [] ∧ schema ≠ [] ∧
      (∀ c ∈ pass, regexpConfigDsn.nonSpace c = true) ∧
      (∀ c ∈ host, regexpConfigDsn.notParen c = true) ∧
      (∀ c ∈ schema, regexpConfigDsn.nameChar c = true) ∧
      ∃ rest, cs = pass ++ "@tcp(".data ++ host ++ ")/".data ++ schema ++ rest := by
  intro cs
  induction cs with
  | nil => intro pass host schema h; simp [regexpConfigDsn.password] at h
  | cons c cs ih =>
    intro pass host schema h
    unfold regexpConfigDsn.password at h
    by_cases hc : regexpConfigDsn.nonSpace c = true
    · simp only [hc, if_true] at h
      cases hr : regexpConfigDsn.password cs with
      | some r =>
        obtain ⟨p1, h1, s1⟩ := r
        simp only [hr, Option.some.injEq, Prod.mk.injEq] at h
        obtain ⟨hp, hh, hs⟩ := h
        subst hp hh hs
        obtain ⟨_, k2, k3, k4, k5, k6, rest, k7⟩ := ih p1 h1 s1 hr
        refine ⟨by simp, k2, k3, ?_, k5, k6, rest, ?_⟩
        · intro x hx
          rcases List.mem_cons.mp hx with hx | hx
          · subst hx; exact hc
          · exact k4 x hx
        · rw [k7]; simp
      | none =>
        simp only [hr] at h
        cases ha : regexpConfigDsn.afterPassword cs with
        | none => simp [ha] at h
        | some r =>
          obtain ⟨h1, s1⟩ := r
          simp only [ha, Option.some.injEq, Prod.mk.injEq] at h
          obtain ⟨hp, hh, hs⟩ := h
          subst hp hh hs
          obtain ⟨k2, k3, k5, k6, rest, k7⟩ := regexpConfigDsn.afterPassword_sound cs h1 s1 ha
          refine ⟨by simp, k2, k3, ?_, k5, k6, rest, ?_⟩
          · intro x hx
            rw [List.mem_singleton.mp hx]; exact hc
          · rw [k7]; simp
    · simp [hc] at h

/-- The result of `FindStringSubmatch` is either empty or the whole match and four
non-empty groups taken from a text of the form `user:password@tcp(host)/schema...`. -/
theorem regexpConfigDsn.FindStringSubmatch_cases (s : String) :
    regexpConfigDsn.FindStringSubmatch s = [] ∨
    ∃ user pass host schema rest : List Char,
      regexpConfigDsn.FindStringSubmatch s
        = [⟨user ++ ":".data ++ pass ++ "@tcp(".data ++ host ++ ")/".data ++ schema⟩,
           ⟨user⟩, ⟨pass⟩, ⟨host⟩, ⟨schema⟩] ∧
      s.data = user ++ ":".data ++ pass ++ "@tcp(".data ++ host ++ ")/".data ++ schema
        ++ rest ∧
      user ≠ [] ∧ pass ≠ [] ∧ host ≠ [] ∧ schema ≠ [] ∧
      (∀ c ∈ user, regexpConfigDsn.nameChar c = true) ∧
      (∀ c ∈ pass, regexpConfigDsn.nonSpace c = true) ∧
      (∀ c ∈ host, regexpConfigDsn.notParen c = true) ∧
      (∀ c ∈ schema, regexpConfigDsn.nameChar c = true) := by
  unfold regexpConfigDsn.FindStringSubmatch
  by_cases h1 : s.data.takeWhile regexpConfigDsn.nameChar = []
  · left; simp [h1]
  · simp only [h1, if_false]
    cases h2 : regexpConfigDsn.literal ":" (s.data.dropWhile regexpConfigDsn.nameChar) with
    | none => left; rfl
    | some r =>
      cases h3 : regexpConfigDsn.password r with
      | none => left; simp [h3]
      | some parts =>
        obtain ⟨pass, host, schema⟩ := parts
        right
        obtain ⟨k1, k2, k3, k4, k5, k6, rest, k7⟩ :=
          regexpConfigDsn.password_sound r pass host schema h3
        refine ⟨s.data.takeWhile regexpConfigDsn.nameChar, pass, host, schema, rest,
          by simp [h3], ?_,
          h1, k1, k2, k3, fun c hc => List.mem_takeWhile_imp hc, k4, k5, k6⟩
        have e1 := regexpConfigDsn.literal_sound _ _ _ h2
        have e2 : s.data = s.data.takeWhile regexpConfigDsn.nameChar
            ++ s.data.dropWhile regexpConfigDsn.nameChar :=
          (List.takeWhile_append_dropWhile _ _).symm
        conv_lhs => rw [e2, e1, k7]
        simp [List.append_assoc]

/-- C17: for a freshly constructed record, username, host and schema after `Default` are
read off the first element of the data-source list only.  With an empty list they stay
empty.  With first element `s`: when `s`, trimmed, matches the pattern, they are the
pattern's user, host and schema groups, and the trimmed text starts with
`user:password@tcp(host)/schema`; when it does not match or is blank they stay empty;
one of the two is the case; and replacing the later elements changes none of the three. -/
theorem Default_reads_first_dsn (table : Char → Char) (c : Config)
    (hu : c.username = "") (hh : c.hostname = "") (hs : c.schema = "") :
    (c.Dsn = [] → (Config.Default table c).username = "" ∧
      (Config.Default table c).hostname = "" ∧ (Config.Default table c).schema = "") ∧
    (∀ s rest, c.Dsn = s :: rest →
      (∀ whole user pass host schema,
        regexpConfigDsn.FindStringSubmatch (strings.TrimSpace s)
          = [whole, user, pass, host, schema] →
        (Config.Default table c).username = user ∧
        (Config.Default table c).hostname = host ∧
        (Config.Default table c).schema = schema ∧
        ∃ more, (strings.TrimSpace s).data
          = user.data ++ ":".data ++ pass.data ++ "@tcp(".data ++ host.data ++ ")/".data
            ++ schema.data ++ more) ∧
      (regexpConfigDsn.FindStringSubmatch (strings.TrimSpace s) = [] →
        (Config.Default table c).username = "" ∧
        (Config.Default table c).hostname = "" ∧ (Config.Default table c).schema = "") ∧
      (strings.TrimSpace s = "" →
        (Config.Default table c).username = "" ∧
        (Config.Default table c).hostname = "" ∧ (Config.Default table c).schema = "") ∧
      (regexpConfigDsn.FindStringSubmatch (strings.TrimSpace s) = [] ∨
        ∃ whole user pass host schema,
          regexpConfigDsn.FindStringSubmatch (strings.TrimSpace s)
            = [whole, user, pass, host, schema]) ∧
      (∀ later, (Config.Default table { c with Dsn := s :: later }).username
          = (Config.Default table c).username ∧
        (Config.Default table { c with Dsn := s :: later }).hostname
          = (Config.Default table c).hostname ∧
        (Config.Default table { c with Dsn := s :: later }).schema
          = (Config.Default table c).schema)) := by
  have hempty : regexpConfigDsn.FindStringSubmatch "" = [] := rfl
  constructor
  · intro hd
    rw [Config.Default_eq, hd]
    simp [Config.dsnParts, Config.filled, hu, hh, hs]
  · intro s rest hd
    refine ⟨?_, ?_, ?_, ?_, ?_⟩
    · intro whole user pass host schema hm
      have hne : strings.TrimSpace s ≠ "" := by
        intro h0
        rw [h0, hempty] at hm
        cases hm
      have hparts : Config.dsnParts c.Dsn = some (user, host, schema) := by
        rw [hd]
        simp [Config.dsnParts, hne, hm]
      rw [Config.Default_of_parts table c user host schema hparts]
      refine ⟨rfl, rfl, rfl, ?_⟩
      rcases regexpConfigDsn.FindStringSubmatch_cases (strings.TrimSpace s) with h0 | h1
      · rw [h0] at hm; cases hm
      · obtain ⟨u, p, h, sc, more, e1, e2, _⟩ := h1
        rw [e1] at hm
        simp only [List.cons.injEq, and_true] at hm
        obtain ⟨_, h2, h3, h4, h5⟩ := hm
        subst h2 h3 h4 h5
        exact ⟨more, e2⟩
    · intro hm
      have hparts : Config.dsnParts c.Dsn = none := by
        rw [hd]
        simp [Config.dsnParts, hm]
      rw [Config.Default_of_none table c hparts]
      exact ⟨hu, hh, hs⟩
    · intro hb
      have hparts : Config.dsnParts c.Dsn = none := by
        rw [hd]
        simp [Config.dsnParts, hb]
      rw [Config.Default_of_none table c hparts]
      exact ⟨hu, hh, hs⟩
    · rcases regexpConfigDsn.FindStringSubmatch_cases (strings.TrimSpace s) with h0 | h1
      · exact Or.inl h0
      · obtain ⟨u, p, h, sc, more, e1, _⟩ := h1
        exact Or.inr ⟨_, _, _, _, _, e1⟩
    · intro later
      have hsame : Config.dsnParts ({ c with Dsn := s :: later } : Config).Dsn
          = Config.dsnParts c.Dsn := by
        rw [hd]; rfl
      rw [Config.Default_eq table { c with Dsn := s :: later }, Config.Default_eq table c,
        hsame]
      cases Config.dsnParts c.Dsn with
      | none => exact ⟨rfl, rfl, rfl⟩
      | some parts => exact ⟨rfl, rfl, rfl⟩

/-- Witness for C17: the data-source string of the end-to-end scenario, which yields
"u", "host:3306" and "orders". -/
theorem Default_reads_first_dsn_witness :
    ordersInput.username = "" ∧ ordersInput.hostname = "" ∧ ordersInput.schema = "" ∧
    (Config.Default id ordersInput).username = "u" ∧
    (Config.Default id ordersInput).hostname = "host:3306" ∧
    (Config.Default id ordersInput).schema = "orders" ∧
    ∃ more, (strings.TrimSpace "u:p@tcp(host:3306)/orders").data
      = "u".data ++ ":".data ++ "p".data ++ "@tcp(".data ++ "host:3306".data ++ ")/".data
        ++ "orders".data ++ more :=
  ⟨rfl, rfl, rfl,
    ((Default_reads_first_dsn id ordersInput rfl rfl rfl).2 "u:p@tcp(host:3306)/orders" []
      rfl).1 "u:p@tcp(host:3306)/orders" "u" "p" "host:3306" "orders" (by decide)⟩

/-! ## Lemmas on sequences of lookups -/

/-- A lookup never changes the configuration records. -/
theorem get_configs (xorm : NewEngineGroup) (o : connection) (attempts : List String)
    (name : String) : (o.get xorm attempts name).o.configs = o.configs := by
  cases he : o.engines name with
  | some eg => simp [connection.get, get.body, he]
  | none =>
    cases hc : o.configs name with
    | none => simp [connection.get, get.body, he, hc]
    | some c =>
      cases hx : xorm (attempts.length + 1) c.Driver c.Dsn with
      | some err => simp [connection.get, get.body, he, hc, hx]
      | none => simp [connection.get, get.body, he, hc, hx, connection.store]

/-- A lookup of one name leaves the entry of every other name as it is and attempts no
construction for it. -/
theorem get_other (xorm : NewEngineGroup) (o : connection) (attempts : List String)
    (name other : String) (hne : other ≠ name) :
    (o.get xorm attempts other).o.engines name = o.engines name ∧
    (o.get xorm attempts other).attempts.count name = attempts.count name := by
  have hne2 : name ≠ other := fun e => hne e.symm
  cases he : o.engines other with
  | some eg => simp [connection.get, get.body, he]
  | none =>
    cases hc : o.configs other with
    | none => simp [connection.get, get.body, he, hc]
    | some c =>
      cases hx : xorm (attempts.length + 1) c.Driver c.Dsn with
      | some err =>
        simp [connection.get, get.body, he, hc, hx, List.count_singleton, hne]
      | none =>
        simp [connection.get, get.body, he, hc, hx, connection.store, hne2,
          List.count_singleton, hne]

/-- A lookup of a name without a record and without an entry returns the default group
and changes nothing. -/
theorem get_fallback (xorm : NewEngineGroup) (o : connection) (attempts : List String)
    (name : String) (hc : o.configs name = none) (he : o.engines name = none) :
    (o.get xorm attempts name).eg = some defaultEngineGroup ∧
    (o.get xorm attempts name).attempts = attempts ∧
    (o.get xorm attempts name).o = o := by
  simp [connection.get, get.body, hc, he]

/-- Once a name is cached, every lookup of it in any sequence returns the cached group,
and the sequence attempts no construction for it. -/
theorem answers_cached (xorm : NewEngineGroup) (name : String) (g : EngineGroup)
    (names : List String) :
    ∀ (o : connection) (attempts : List String), o.engines name = some g →
      (∀ a ∈ o.answers xorm attempts names, a.1 = name → a.2 = some g) ∧
      (o.gets xorm attempts names).2.count name = attempts.count name := by
  induction names with
  | nil => intro o attempts _; exact ⟨by simp [connection.answers], rfl⟩
  | cons n rest ih =>
    intro o attempts h
    obtain ⟨h1, h2⟩ := get_keeps_entry xorm o attempts name n g h
    obtain ⟨h3, h4⟩ := ih (o.get xorm attempts n).o (o.get xorm attempts n).attempts h1
    refine ⟨?_, ?_⟩
    · intro a ha hn
      simp only [connection.answers, List.mem_cons] at ha
      rcases ha with ha | ha
      · subst ha
        simp only at hn
        subst hn
        exact (get_cached xorm o attempts n g h).1
      · exact h3 a ha hn
    · simp only [connection.gets]
      rw [h4, h2]

/-- A name without a record and without an entry stays so: every lookup of it in any
sequence returns the default group, and the sequence attempts no construction for it. -/
theorem answers_unconfigured (xorm : NewEngineGroup) (name : String)
    (names : List String) :
    ∀ (o : connection) (attempts : List String),
      o.configs name = none → o.engines name = none →
      (∀ a ∈ o.answers xorm attempts names, a.1 = name → a.2 = some defaultEngineGroup) ∧
      (o.gets xorm attempts names).2.count name = attempts.count name := by
  induction names with
  | nil => intro o attempts _ _; exact ⟨by simp [connection.answers], rfl⟩
  | cons n rest ih =>
    intro o attempts hc he
    by_cases hn : n = name
    · subst hn
      obtain ⟨k1, k2, k3⟩ := get_fallback xorm o attempts n hc he
      have ih2 := ih (o.get xorm attempts n).o (o.get xorm attempts n).attempts
        (by rw [k3]; exact hc) (by rw [k3]; exact he)
      refine ⟨?_, ?_⟩
      · intro a ha hna
        simp only [connection.answers, List.mem_cons] at ha
        rcases ha with ha | ha
        · subst ha; exact k1
        · exact ih2.1 a ha hna
      · simp only [connection.gets]
        rw [ih2.2, k2]
    · obtain ⟨k1, k2⟩ := get_other xorm o attempts name n hn
      have k3 := get_configs xorm o attempts n
      have ih2 := ih (o.get xorm attempts n).o (o.get xorm attempts n).attempts
        (by rw [k3]; exact hc) (by rw [k1]; exact he)
      refine ⟨?_, ?_⟩
      · intro a ha hna
        simp only [connection.answers, List.mem_cons] at ha
        rcases ha with ha | ha
        · subst ha
          exact absurd hna hn
        · exact ih2.1 a ha hna
      · simp only [connection.gets]
        rw [ih2.2, k2]

/-- A lookup of a configured name without an entry, when the construction succeeds,
returns the new group, records one attempt and stores the group. -/
theorem get_constructs_once_aux (xorm : NewEngineGroup) (o : connection)
    (attempts : List String) (name : String) (c : Config)
    (hmiss : o.engines name = none) (hcfg : o.configs name = some c)
    (hok : xorm (attempts.length + 1) c.Driver c.Dsn = none) :
    ∃ g, (o.get xorm attempts name).eg = some g ∧
      (o.get xorm attempts name).attempts = attempts ++ [name] ∧
      (o.get xorm attempts name).o.engines name = some g ∧ g ≠ defaultEngineGroup := by
  refine ⟨(((((((EngineGroup.new (attempts.length + 1) c.Driver c.Dsn).SetMapper
      c.GetMapper).SetMaxOpenConns c.MaxOpen).SetMaxIdleConns c.MaxIdle).SetConnMaxLifetime
      c.maxLifetime).SetLogger c).ShowSQL c.ShowSql).EnableSessionID c.EnableSessionId,
      ?_, ?_, ?_, ?_⟩
  · simp [connection.get, get.body, hmiss, hcfg, hok]
  · simp [connection.get, get.body, hmiss, hcfg, hok]
  · simp [connection.get, get.body, hmiss, hcfg, hok, connection.store]
  · intro h
    have hid := congrArg EngineGroup.id h
    simp [EngineGroup.EnableSessionID, EngineGroup.ShowSQL, EngineGroup.SetLogger,
      EngineGroup.SetConnMaxLifetime, EngineGroup.SetMaxIdleConns,
      EngineGroup.SetMaxOpenConns, EngineGroup.SetMapper, EngineGroup.new,
      defaultEngineGroup] at hid

/-- For a configured name whose construction never fails and that has no entry yet: all
lookups of it in any sequence return one and the same group, and the sequence attempts at
most one construction for it. -/
theorem answers_configured (xorm : NewEngineGroup) (name : String) (c : Config)
    (hok : ∀ n, xorm n c.Driver c.Dsn = none) (names : List String) :
    ∀ (o : connection) (attempts : List String),
      o.configs name = some c → o.engines name = none →
      ∃ g, (∀ a ∈ o.answers xorm attempts names, a.1 = name → a.2 = some g) ∧
        (o.gets xorm attempts names).2.count name ≤ attempts.count name + 1 := by
  induction names with
  | nil =>
    intro o attempts _ _
    exact ⟨defaultEngineGroup, by simp [connection.answers], by simp [connection.gets]⟩
  | cons n rest ih =>
    intro o attempts hc he
    by_cases hn : n = name
    · subst hn
      obtain ⟨g, k1, k2, k3, _⟩ :=
        get_constructs_once_aux xorm o attempts n c he hc (hok _)
      obtain ⟨k4, k5⟩ := answers_cached xorm n g rest (o.get xorm attempts n).o
        (o.get xorm attempts n).attempts k3
      refine ⟨g, ?_, ?_⟩
      · intro a ha hna
        simp only [connection.answers, List.mem_cons] at ha
        rcases ha with ha | ha
        · subst ha; exact k1
        · exact k4 a ha hna
      · simp only [connection.gets]
        rw [k5, k2]
        simp
    · obtain ⟨k1, k2⟩ := get_other xorm o attempts name n hn
      have k3 := get_configs xorm o attempts n
      obtain ⟨g, k4, k5⟩ := ih (o.get xorm attempts n).o (o.get xorm attempts n).attempts
        (by rw [k3]; exact hc) (by rw [k1]; exact he)
      refine ⟨g, ?_, ?_⟩
      · intro a ha hna
        simp only [connection.answers, List.mem_cons] at ha
        rcases ha with ha | ha
        · subst ha
          exact absurd hna hn
        · exact k4 a ha hna
      · simp only [connection.gets]
        rw [k2] at k5
        exact k5

/-- For a name whose construction, when one is needed, does not fail: in every sequence of
lookups all lookups of the name return one and the same group, and at most one
construction is attempted for it. -/
theorem answers_agree (xorm : NewEngineGroup) (o : connection) (attempts : List String)
    (name : String) (names : List String)
    (hok : ∀ c n, o.engines name = none → o.configs name = some c →
      xorm n c.Driver c.Dsn = none) :
    ∃ g, (∀ a ∈ o.answers xorm attempts names, a.1 = name → a.2 = some g) ∧
      (o.gets xorm attempts names).2.count name ≤ attempts.count name + 1 := by
  cases he : o.engines name with
  | some g =>
    obtain ⟨h1, h2⟩ := answers_cached xorm name g names o attempts he
    exact ⟨g, h1, by omega⟩
  | none =>
    cases hc : o.configs name with
    | none =>
      obtain ⟨h1, h2⟩ := answers_unconfigured xorm name names o attempts hc he
      exact ⟨defaultEngineGroup, h1, by omega⟩
    | some c =>
      exact answers_configured xorm name c (fun n => hok c n he hc) names o attempts hc he

/-! ## Lemmas on concurrent callers -/

/-- The step at `o.mu.Lock()` when the mutex is free. -/
theorem get.step_lock_free (xorm : NewEngineGroup) (callers : Nat → String)
    (st : Goroutines) (j : Nat) (hp : st.point j = .lock) (hm : st.mu = none) :
    get.step xorm callers st j
      = { st with mu := some j, point := Function.update st.point j .lookup } := by
  simp [get.step, hp, hm]

/-- The step at `o.mu.Lock()` when the mutex is held. -/
theorem get.step_lock_held (xorm : NewEngineGroup) (callers : Nat → String)
    (st : Goroutines) (j m : Nat) (hp : st.point j = .lock) (hm : st.mu = some m) :
    get.step xorm callers st j = st := by
  simp [get.step, hp, hm]

/-- The step at the cache test when the name has an entry. -/
theorem get.step_lookup_hit (xorm : NewEngineGroup) (callers : Nat → String)
    (st : Goroutines) (j : Nat) (eg : EngineGroup) (hp : st.point j = .lookup)
    (he : st.o.engines (callers j) = some eg) :
    get.step xorm callers st j
      = { st with point := Function.update st.point j (.unlock (some eg)) } := by
  simp [get.step, hp, he]

/-- The step at the cache test when the name has no entry. -/
theorem get.step_lookup_miss (xorm : NewEngineGroup) (callers : Nat → String)
    (st : Goroutines) (j : Nat) (hp : st.point j = .lookup)
    (he : st.o.engines (callers j) = none) :
    get.step xorm callers st j
      = { st with point := Function.update st.point j .config } := by
  simp [get.step, hp, he]

/-- The step at the record test when the name has no record. -/
theorem get.step_config_none (xorm : NewEngineGroup) (callers : Nat → String)
    (st : Goroutines) (j : Nat) (hp : st.point j = .config)
    (hc : st.o.configs (callers j) = none) :
    get.step xorm callers st j
      = { st with point := Function.update st.point j (.unlock none) } := by
  simp [get.step, hp, hc]

/-- The step at the record test when the name has a record. -/
theorem get.step_config_some (xorm : NewEngineGroup) (callers : Nat → String)
    (st : Goroutines) (j : Nat) (c : Config) (hp : st.point j = .config)
    (hc : st.o.configs (callers j) = some c) :
    get.step xorm callers st j
      = { st with point := Function.update st.point j (.construct c) } := by
  simp [get.step, hp, hc]

/-- The step at the construction when it fails. -/
theorem get.step_construct_fail (xorm : NewEngineGroup) (callers : Nat → String)
    (st : Goroutines) (j : Nat) (c : Config) (err : Error)
    (hp : st.point j = .construct c)
    (hx : xorm (st.attempts.length + 1) c.Driver c.Dsn = some err) :
    get.step xorm callers st j
      = { st with attempts := st.attempts ++ [callers j],
                  point := Function.update st.point j (.unlock none) } := by
  simp [get.step, hp, hx]

/-- The step at the construction when it succeeds. -/
theorem get.step_construct_ok (xorm : NewEngineGroup) (callers : Nat → String)
    (st : Goroutines) (j : Nat) (c : Config) (hp : st.point j = .construct c)
    (hx : xorm (st.attempts.length + 1) c.Driver c.Dsn = none) :
    get.step xorm callers st j
      = { st with attempts := st.attempts ++ [callers j],
                  point := Function.update st.point j
                    (.store (get.built (st.attempts.length + 1) c)) } := by
  simp [get.step, hp, hx, get.built]

/-- The step that stores the new group. -/
theorem get.step_store (xorm : NewEngineGroup) (callers : Nat → String)
    (st : Goroutines) (j : Nat) (eg : EngineGroup) (hp : st.point j = .store eg) :
    get.step xorm callers st j
      = { st with o := st.o.store (callers j) eg,
                  point := Function.update st.point j (.unlock (some eg)) } := by
  simp [get.step, hp]

/-- The step at `o.mu.Unlock()`. -/
theorem get.step_unlock (xorm : NewEngineGroup) (callers : Nat → String)
    (st : Goroutines) (j : Nat) (eg : Option EngineGroup) (hp : st.point j = .unlock eg) :
    get.step xorm callers st j
      = { st with mu := none, point := Function.update st.point j (.fallback eg) } := by
  simp [get.step, hp]

/-- The step at the nil test when `eg` is nil. -/
theorem get.step_fallback_nil (xorm : NewEngineGroup) (callers : Nat → String)
    (st : Goroutines) (j : Nat) (hp : st.point j = .fallback none) :
    get.step xorm callers st j
      = { st with point :=
            Function.update st.point j (.returned (some defaultEngineGroup)) } := by
  simp [get.step, hp]

/-- The step at the nil test when `eg` is a group. -/
theorem get.step_fallback_group (xorm : NewEngineGroup) (callers : Nat → String)
    (st : Goroutines) (j : Nat) (g : EngineGroup) (hp : st.point j = .fallback (some g)) :
    get.step xorm callers st j
      = { st with point := Function.update st.point j (.returned (some g)) } := by
  simp [get.step, hp]

/-- A goroutine that has returned takes no step. -/
theorem get.step_returned (xorm : NewEngineGroup) (callers : Nat → String)
    (st : Goroutines) (j : Nat) (eg : Option EngineGroup) (hp : st.point j = .returned eg) :
    get.step xorm callers st j = st := by
  simp [get.step, hp]

/-- Every step has one of a few shapes: it leaves the state as it is, or it moves the
goroutine to a new point and possibly takes or frees the mutex, records an attempt for the
goroutine's name, or stores a group under the goroutine's name. -/
theorem get.step_shape (xorm : NewEngineGroup) (callers : Nat → String)
    (st : Goroutines) (j : Nat) :
    ∃ x, (get.step xorm callers st j).point = Function.update st.point j x ∧
      (get.step xorm callers st j).o.configs = st.o.configs ∧
      ((get.step xorm callers st j).o = st.o ∨
        ∃ eg, (get.step xorm callers st j).o = st.o.store (callers j) eg) ∧
      ((get.step xorm callers st j).attempts = st.attempts ∨
        (get.step xorm callers st j).attempts = st.attempts ++ [callers j]) := by
  cases hp : st.point j with
  | lock =>
    cases hm : st.mu with
    | none =>
      rw [get.step_lock_free xorm callers st j hp hm]
      exact ⟨_, rfl, rfl, Or.inl rfl, Or.inl rfl⟩
    | some m =>
      rw [get.step_lock_held xorm callers st j m hp hm]
      exact ⟨.lock, by rw [← hp, Function.update_eq_self], rfl, Or.inl rfl, Or.inl rfl⟩
  | lookup =>
    cases he : st.o.engines (callers j) with
    | none =>
      rw [get.step_lookup_miss xorm callers st j hp he]
      exact ⟨_, rfl, rfl, Or.inl rfl, Or.inl rfl⟩
    | some eg =>
      rw [get.step_lookup_hit xorm callers st j eg hp he]
      exact ⟨_, rfl, rfl, Or.inl rfl, Or.inl rfl⟩
  | config =>
    cases hc : st.o.configs (callers j) with
    | none =>
      rw [get.step_config_none xorm callers st j hp hc]
      exact ⟨_, rfl, rfl, Or.inl rfl, Or.inl rfl⟩
    | some c =>
      rw [get.step_config_some xorm callers st j c hp hc]
      exact ⟨_, rfl, rfl, Or.inl rfl, Or.inl rfl⟩
  | construct c =>
    cases hx : xorm (st.attempts.length + 1) c.Driver c.Dsn with
    | none =>
      rw [get.step_construct_ok xorm callers st j c hp hx]
      exact ⟨_, rfl, rfl, Or.inl rfl, Or.inr rfl⟩
    | some err =>
      rw [get.step_construct_fail xorm callers st j c err hp hx]
      exact ⟨_, rfl, rfl, Or.inl rfl, Or.inr rfl⟩
  | store eg =>
    rw [get.step_store xorm callers st j eg hp]
    exact ⟨_, rfl, rfl, Or.inr ⟨eg, rfl⟩, Or.inl rfl⟩
  | unlock eg =>
    rw [get.step_unlock xorm callers st j eg hp]
    exact ⟨_, rfl, rfl, Or.inl rfl, Or.inl rfl⟩
  | fallback eg =>
    cases eg with
    | none =>
      rw [get.step_fallback_nil xorm callers st j hp]
      exact ⟨_, rfl, rfl, Or.inl rfl, Or.inl rfl⟩
    | some g =>
      rw [get.step_fallback_group xorm callers st j g hp]
      exact ⟨_, rfl, rfl, Or.inl rfl, Or.inl rfl⟩
  | returned eg =>
    rw [get.step_returned xorm callers st j eg hp]
    exact ⟨.returned eg, by rw [← hp, Function.update_eq_self], rfl, Or.inl rfl, Or.inl rfl⟩

/-- A step of one goroutine leaves every other goroutine where it is. -/
theorem get.step_point_other (xorm : NewEngineGroup) (callers : Nat → String)
    (st : Goroutines) (i j : Nat) (h : i ≠ j) :
    (get.step xorm callers st j).point i = st.point i := by
  obtain ⟨x, hx, _⟩ := get.step_shape xorm callers st j
  rw [hx, Function.update_noteq h]

/-- No step changes the configuration records. -/
theorem get.step_configs (xorm : NewEngineGroup) (callers : Nat → String)
    (st : Goroutines) (j : Nat) :
    (get.step xorm callers st j).o.configs = st.o.configs :=
  (get.step_shape xorm callers st j).choose_spec.2.1

/-- A step of a goroutine that looks up another name changes neither the entry of `name`
nor the number of construction attempts for it. -/
theorem get.step_other_name (xorm : NewEngineGroup) (callers : Nat → String)
    (st : Goroutines) (j : Nat) (name : String) (h : callers j ≠ name) :
    (get.step xorm callers st j).o.engines name = st.o.engines name ∧
    (get.step xorm callers st j).attempts.count name = st.attempts.count name := by
  have h2 : name ≠ callers j := fun e => h e.symm
  obtain ⟨x, _, _, ho, ha⟩ := get.step_shape xorm callers st j
  constructor
  · rcases ho with ho | ⟨eg, ho⟩
    · rw [ho]
    · rw [ho]; simp [connection.store, h2]
  · rcases ha with ha | ha
    · rw [ha]
    · rw [ha]; simp [List.count_singleton, h]

/-- Mutual exclusion is kept when the holder of the mutex moves. -/
theorem get.exclusive_holder_moves (st : Goroutines) (h : get.Exclusive st) (j : Nat)
    (x : get.Point) (hj : st.mu = some j) (o : connection) (attempts : List String) :
    get.Exclusive
      { o := o, attempts := attempts, mu := st.mu, point := Function.update st.point j x } := by
  intro i hi
  by_cases hij : i = j
  · subst hij; exact hj
  · simp only [Function.update_noteq hij] at hi
    exact h i hi

/-- Mutual exclusion is kept when a goroutine moves to a point outside the critical
section without touching the mutex. -/
theorem get.exclusive_outside_moves (st : Goroutines) (h : get.Exclusive st) (j : Nat)
    (x : get.Point) (hx : x.locked = false) :
    get.Exclusive
      { o := st.o, attempts := st.attempts, mu := st.mu,
        point := Function.update st.point j x } := by
  intro i hi
  by_cases hij : i = j
  · subst hij
    simp only [Function.update_same] at hi
    rw [hx] at hi
    cases hi
  · simp only [Function.update_noteq hij] at hi
    exact h i hi

/-- Mutual exclusion is kept by every step. -/
theorem get.step_exclusive (xorm : NewEngineGroup) (callers : Nat → String)
    (st : Goroutines) (j : Nat) (h : get.Exclusive st) :
    get.Exclusive (get.step xorm callers st j) := by
  cases hp : st.point j with
  | lock =>
    cases hm : st.mu with
    | none =>
      rw [get.step_lock_free xorm callers st j hp hm]
      intro i hi
      by_cases hij : i = j
      · subst hij; rfl
      · simp only [Function.update_noteq hij] at hi
        have h1 := h i hi
        rw [hm] at h1
        cases h1
    | some m =>
      rw [get.step_lock_held xorm callers st j m hp hm]
      exact h
  | lookup =>
    have hj := h j (by rw [hp]; rfl)
    cases he : st.o.engines (callers j) with
    | none =>
      rw [get.step_lookup_miss xorm callers st j hp he]
      exact get.exclusive_holder_moves st h j _ hj _ _
    | some eg =>
      rw [get.step_lookup_hit xorm callers st j eg hp he]
      exact get.exclusive_holder_moves st h j _ hj _ _
  | config =>
    have hj := h j (by rw [hp]; rfl)
    cases hc : st.o.configs (callers j) with
    | none =>
      rw [get.step_config_none xorm callers st j hp hc]
      exact get.exclusive_holder_moves st h j _ hj _ _
    | some c =>
      rw [get.step_config_some xorm callers st j c hp hc]
      exact get.exclusive_holder_moves st h j _ hj _ _
  | construct c =>
    have hj := h j (by rw [hp]; rfl)
    cases hx : xorm (st.attempts.length + 1) c.Driver c.Dsn with
    | none =>
      rw [get.step_construct_ok xorm callers st j c hp hx]
      exact get.exclusive_holder_moves st h j _ hj _ _
    | some err =>
      rw [get.step_construct_fail xorm callers st j c err hp hx]
      exact get.exclusive_holder_moves st h j _ hj _ _
  | store eg =>
    have hj := h j (by rw [hp]; rfl)
    rw [get.step_store xorm callers st j eg hp]
    exact get.exclusive_holder_moves st h j _ hj _ _
  | unlock eg =>
    have hj := h j (by rw [hp]; rfl)
    rw [get.step_unlock xorm callers st j eg hp]
    intro i hi
    by_cases hij : i = j
    · subst hij
      simp only [Function.update_same] at hi
      cases hi
    · simp only [Function.update_noteq hij] at hi
      have h1 := h i hi
      rw [hj] at h1
      exact absurd (Option.some.inj h1).symm hij
  | fallback eg =>
    cases eg with
    | none =>
      rw [get.step_fallback_nil xorm callers st j hp]
      exact get.exclusive_outside_moves st h j _ rfl
    | some g =>
      rw [get.step_fallback_group xorm callers st j g hp]
      exact get.exclusive_outside_moves st h j _ rfl
  | returned eg =>
    rw [get.step_returned xorm callers st j eg hp]
    exact h

/-- A property of the points of the goroutines looking up `name` survives the move of
one goroutine to a point that has it. -/
theorem get.update_keeps (callers : Nat → String) (name : String) (P : get.Point → Prop)
    (point : Nat → get.Point) (j : Nat) (x : get.Point) (hx : P x)
    (h : ∀ i, callers i = name → P (point i)) :
    ∀ i, callers i = name → P (Function.update point j x i) := by
  intro i hi
  by_cases hij : i = j
  · subst hij; rw [Function.update_same]; exact hx
  · rw [Function.update_noteq hij]; exact h i hi

/-- A property of the points of the goroutines looking up `name` survives every step of a
goroutine that looks up another name. -/
theorem get.step_other_keeps (xorm : NewEngineGroup) (callers : Nat → String)
    (st : Goroutines) (j : Nat) (name : String) (hj : callers j ≠ name)
    (P : get.Point → Prop) (h : ∀ i, callers i = name → P (st.point i)) :
    ∀ i, callers i = name → P ((get.step xorm callers st j).point i) := by
  intro i hi
  have hij : i ≠ j := by
    intro e; subst e; exact hj hi
  rw [get.step_point_other xorm callers st i j hij]
  exact h i hi

/-- While `name` is cached, every step keeps it cached, attempts no construction for it,
and goroutines that look it up end with the cached group. -/
theorem get.step_cached (xorm : NewEngineGroup) (callers : Nat → String) (name : String)
    (g : EngineGroup) (k : Nat) (st : Goroutines) (j : Nat)
    (h : get.CachedInv callers name g k st) :
    get.CachedInv callers name g k (get.step xorm callers st j) := by
  obtain ⟨he, hk, hpts⟩ := h
  by_cases hj : callers j = name
  · have hpj := hpts j hj
    cases hp : st.point j with
    | lock =>
      cases hm : st.mu with
      | none =>
        rw [get.step_lock_free xorm callers st j hp hm]
        exact ⟨he, hk, get.update_keeps callers name _ st.point j _ trivial hpts⟩
      | some m =>
        rw [get.step_lock_held xorm callers st j m hp hm]
        exact ⟨he, hk, hpts⟩
    | lookup =>
      have he2 : st.o.engines (callers j) = some g := by rw [hj]; exact he
      rw [get.step_lookup_hit xorm callers st j g hp he2]
      exact ⟨he, hk, get.update_keeps callers name _ st.point j _ rfl hpts⟩
    | config => rw [hp] at hpj; exact hpj.elim
    | construct c => rw [hp] at hpj; exact hpj.elim
    | store eg => rw [hp] at hpj; exact hpj.elim
    | unlock eg =>
      rw [hp] at hpj
      rw [get.step_unlock xorm callers st j eg hp]
      exact ⟨he, hk, get.update_keeps callers name _ st.point j _ hpj hpts⟩
    | fallback eg =>
      rw [hp] at hpj
      have hpj2 : eg = some g := hpj
      subst hpj2
      rw [get.step_fallback_group xorm callers st j g hp]
      exact ⟨he, hk, get.update_keeps callers name _ st.point j _ rfl hpts⟩
    | returned eg =>
      rw [get.step_returned xorm callers st j eg hp]
      exact ⟨he, hk, hpts⟩
  · obtain ⟨h1, h2⟩ := get.step_other_name xorm callers st j name hj
    exact ⟨by rw [h1]; exact he, by rw [h2]; exact hk,
      get.step_other_keeps xorm callers st j name hj _ hpts⟩

/-- While `name` has neither record nor entry, every step keeps it so, attempts no
construction for it, and goroutines that look it up end with the default group. -/
theorem get.step_unconfigured (xorm : NewEngineGroup) (callers : Nat → String)
    (name : String) (k : Nat) (st : Goroutines) (j : Nat)
    (h : get.UnconfiguredInv callers name k st) :
    get.UnconfiguredInv callers name k (get.step xorm callers st j) := by
  obtain ⟨he, hc, hk, hpts⟩ := h
  by_cases hj : callers j = name
  · have hpj := hpts j hj
    cases hp : st.point j with
    | lock =>
      cases hm : st.mu with
      | none =>
        rw [get.step_lock_free xorm callers st j hp hm]
        exact ⟨he, hc, hk, get.update_keeps callers name _ st.point j _ trivial hpts⟩
      | some m =>
        rw [get.step_lock_held xorm callers st j m hp hm]
        exact ⟨he, hc, hk, hpts⟩
    | lookup =>
      have he2 : st.o.engines (callers j) = none := by rw [hj]; exact he
      rw [get.step_lookup_miss xorm callers st j hp he2]
      exact ⟨he, hc, hk, get.update_keeps callers name _ st.point j _ trivial hpts⟩
    | config =>
      have hc2 : st.o.configs (callers j) = none := by rw [hj]; exact hc
      rw [get.step_config_none xorm callers st j hp hc2]
      exact ⟨he, hc, hk, get.update_keeps callers name _ st.point j _ rfl hpts⟩
    | construct c => rw [hp] at hpj; exact hpj.elim
    | store eg => rw [hp] at hpj; exact hpj.elim
    | unlock eg =>
      rw [hp] at hpj
      rw [get.step_unlock xorm callers st j eg hp]
      exact ⟨he, hc, hk, get.update_keeps callers name _ st.point j _ hpj hpts⟩
    | fallback eg =>
      rw [hp] at hpj
      have hpj2 : eg = none := hpj
      subst hpj2
      rw [get.step_fallback_nil xorm callers st j hp]
      exact ⟨he, hc, hk, get.update_keeps callers name _ st.point j _ rfl hpts⟩
    | returned eg =>
      rw [get.step_returned xorm callers st j eg hp]
      exact ⟨he, hc, hk, hpts⟩
  · obtain ⟨h1, h2⟩ := get.step_other_name xorm callers st j name hj
    exact ⟨by rw [h1]; exact he, by rw [get.step_configs]; exact hc, by rw [h2]; exact hk,
      get.step_other_keeps xorm callers st j name hj _ hpts⟩

/-- A goroutine that has not got past the construction and is outside the critical
section has not taken the mutex yet. -/
theorem get.Point.beforeOk_outside (c : Config) (x : get.Point) (h : x.beforeOk c)
    (hx : x.locked = false) : x = .lock := by
  cases x with
  | lock => rfl
  | lookup => cases hx
  | config => cases hx
  | construct d => cases hx
  | store eg => exact h.elim
  | unlock eg => exact h.elim
  | fallback eg => exact h.elim
  | returned eg => exact h.elim

/-- For a name with record `c` whose construction does not fail, every step keeps the
state of affairs described by `ConfiguredInv`. -/
theorem get.step_configured (xorm : NewEngineGroup) (callers : Nat → String)
    (name : String) (c : Config) (hok : ∀ n, xorm n c.Driver c.Dsn = none) (k : Nat)
    (st : Goroutines) (j : Nat) (h : get.ConfiguredInv callers name c k st) :
    get.ConfiguredInv callers name c k (get.step xorm callers st j) := by
  obtain ⟨hM, hcfg, hphase⟩ := h
  refine ⟨get.step_exclusive xorm callers st j hM, by rw [get.step_configs]; exact hcfg, ?_⟩
  rcases hphase with ⟨he, hk, hpts⟩ | ⟨g, j0, he, hk, hj0, hpj0, hothers⟩ | ⟨g, hcached⟩
  · -- nothing attempted yet
    by_cases hj : callers j = name
    · have hpj := hpts j hj
      cases hp : st.point j with
      | lock =>
        cases hm : st.mu with
        | none =>
          rw [get.step_lock_free xorm callers st j hp hm]
          exact Or.inl ⟨he, hk, get.update_keeps callers name _ st.point j _ trivial hpts⟩
        | some m =>
          rw [get.step_lock_held xorm callers st j m hp hm]
          exact Or.inl ⟨he, hk, hpts⟩
      | lookup =>
        have he2 : st.o.engines (callers j) = none := by rw [hj]; exact he
        rw [get.step_lookup_miss xorm callers st j hp he2]
        exact Or.inl ⟨he, hk, get.update_keeps callers name _ st.point j _ trivial hpts⟩
      | config =>
        have hc2 : st.o.configs (callers j) = some c := by rw [hj]; exact hcfg
        rw [get.step_config_some xorm callers st j c hp hc2]
        exact Or.inl ⟨he, hk, get.update_keeps callers name _ st.point j _ rfl hpts⟩
      | construct d =>
        rw [hp] at hpj
        have hd : d = c := hpj
        subst hd
        have hmu : st.mu = some j := hM j (by rw [hp]; rfl)
        rw [get.step_construct_ok xorm callers st j d hp (hok _)]
        refine Or.inr (Or.inl ⟨get.built (st.attempts.length + 1) d, j, he, ?_, hj, ?_, ?_⟩)
        · show (st.attempts ++ [callers j]).count name = k + 1
          rw [hj, List.count_append, hk]
          simp
        · show Function.update st.point j _ j = _
          rw [Function.update_same]
        · intro i hi hij
          show Function.update st.point j _ i = _
          rw [Function.update_noteq hij]
          apply get.Point.beforeOk_outside d _ (hpts i hi)
          cases hl : (st.point i).locked with
          | false => rfl
          | true =>
            have h1 := hM i hl
            rw [hmu] at h1
            exact absurd (Option.some.inj h1).symm hij
      | store eg => rw [hp] at hpj; exact hpj.elim
      | unlock eg => rw [hp] at hpj; exact hpj.elim
      | fallback eg => rw [hp] at hpj; exact hpj.elim
      | returned eg => rw [hp] at hpj; exact hpj.elim
    · obtain ⟨h1, h2⟩ := get.step_other_name xorm callers st j name hj
      exact Or.inl ⟨by rw [h1]; exact he, by rw [h2]; exact hk,
        get.step_other_keeps xorm callers st j name hj _ hpts⟩
  · -- one goroutine is about to store the group it built
    by_cases hjj : j = j0
    · subst hjj
      rw [get.step_store xorm callers st j g hpj0]
      refine Or.inr (Or.inr ⟨g, ?_, hk, ?_⟩)
      · show (st.o.store (callers j) g).engines name = some g
        simp [connection.store, hj0]
      · intro i hi
        show (Function.update st.point j (get.Point.unlock (some g)) i).cachedOk g
        by_cases hij : i = j
        · subst hij; rw [Function.update_same]; rfl
        · rw [Function.update_noteq hij, hothers i hi hij]; trivial
    · by_cases hj : callers j = name
      · have hmu : st.mu = some j0 := hM j0 (by rw [hpj0]; rfl)
        rw [get.step_lock_held xorm callers st j j0 (hothers j hj hjj) hmu]
        exact Or.inr (Or.inl ⟨g, j0, he, hk, hj0, hpj0, hothers⟩)
      · obtain ⟨h1, h2⟩ := get.step_other_name xorm callers st j name hj
        refine Or.inr (Or.inl ⟨g, j0, by rw [h1]; exact he, by rw [h2]; exact hk, hj0, ?_, ?_⟩)
        · rw [get.step_point_other xorm callers st j0 j (fun e => hjj e.symm)]
          exact hpj0
        · intro i hi hij
          have hne : i ≠ j := by
            intro e; subst e; exact hj hi
          rw [get.step_point_other xorm callers st i j hne]
          exact hothers i hi hij
  · -- the group is cached
    exact Or.inr (Or.inr ⟨g, get.step_cached xorm callers name g (k + 1) st j hcached⟩)

/-- What every step keeps, every schedule keeps. -/
theorem get.run_keeps (xorm : NewEngineGroup) (callers : Nat → String)
    (Inv : Goroutines → Prop)
    (hstep : ∀ st j, Inv st → Inv (get.step xorm callers st j))
    (schedule : List Nat) : ∀ st, Inv st → Inv (get.run xorm callers st schedule) := by
  induction schedule with
  | nil => intro st h; exact h
  | cons j rest ih =>
    intro st h
    exact ih (get.step xorm callers st j) (hstep st j h)

/-- A goroutine that runs `get` alone, from its first statement to its return, does what
`connection.get` describes: same returned pointer, same registry, same record of attempts,
and the mutex is free again. -/
theorem get.run_alone (xorm : NewEngineGroup) (callers : Nat → String) (st : Goroutines)
    (j : Nat) (hp : st.point j = .lock) (hm : st.mu = none) :
    (get.run xorm callers st (List.replicate 7 j)).point j
      = .returned (st.o.get xorm st.attempts (callers j)).eg ∧
    (get.run xorm callers st (List.replicate 7 j)).o
      = (st.o.get xorm st.attempts (callers j)).o ∧
    (get.run xorm callers st (List.replicate 7 j)).attempts
      = (st.o.get xorm st.attempts (callers j)).attempts ∧
    (get.run xorm callers st (List.replicate 7 j)).mu = none := by
  cases he : st.o.engines (callers j) with
  | some eg =>
    simp [get.run, List.replicate, get.step, hp, hm, he, connection.get, get.body]
  | none =>
    cases hc : st.o.configs (callers j) with
    | none =>
      simp [get.run, List.replicate, get.step, hp, hm, he, hc, connection.get, get.body]
    | some c =>
      cases hx : xorm (st.attempts.length + 1) c.Driver c.Dsn with
      | some err =>
        simp [get.run, List.replicate, get.step, hp, hm, he, hc, hx, connection.get,
          get.body]
      | none =>
        simp [get.run, List.replicate, get.step, hp, hm, he, hc, hx, connection.get,
          get.body]

/-! ## Claim on concurrent lookups -/

/-- C19 (as stated, refuted): it is not the case that, for every environment, registry,
set of concurrent callers and schedule, the callers of one name all return the same group
with at most one construction invoked for the name.  When the construction for "db"
fails, two goroutines resolving "db" invoke it one after the other. -/
theorem get_concurrent_construction_invoked_again :
    ¬ (∀ (xorm : NewEngineGroup) (o : connection) (attempts : List String)
        (callers : Nat → String) (name : String) (schedule : List Nat),
        (∃ g, ∀ i eg, callers i = name →
          (get.run xorm callers (Goroutines.start o attempts) schedule).point i
            = .returned eg → eg = some g) ∧
        (get.run xorm callers (Goroutines.start o attempts) schedule).attempts.count name
          ≤ attempts.count name + 1) := by
  intro h
  have h1 := (h neverBuilds dbOnly [] (fun _ => "db") "db"
    [0, 1, 0, 0, 0, 1, 0, 1, 0, 1, 1, 1, 1, 1]).2
  revert h1
  decide

/-- C19 (amended): for every name whose construction, when one is needed, does not fail
(a name already cached or without a record needs none), for every set of goroutines
calling `get` concurrently and every schedule of their steps, all goroutines that resolve
the name and have returned hold one and the same group, and at most one construction was
invoked for the name. -/
theorem get_concurrent_callers_agree (xorm : NewEngineGroup) (o : connection)
    (attempts : List String) (callers : Nat → String) (name : String)
    (schedule : List Nat)
    (hok : ∀ c n, o.engines name = none → o.configs name = some c →
      xorm n c.Driver c.Dsn = none) :
    ∃ g, (∀ i eg, callers i = name →
        (get.run xorm callers (Goroutines.start o attempts) schedule).point i
          = .returned eg → eg = some g) ∧
      (get.run xorm callers (Goroutines.start o attempts) schedule).attempts.count name
        ≤ attempts.count name + 1 := by
  cases he : o.engines name with
  | some g =>
    have hinv := get.run_keeps xorm callers (get.CachedInv callers name g (attempts.count name))
      (fun st j => get.step_cached xorm callers name g _ st j) schedule
      (Goroutines.start o attempts) ⟨he, rfl, fun _ _ => trivial⟩
    obtain ⟨_, hk, hpts⟩ := hinv
    refine ⟨g, ?_, by omega⟩
    intro i eg hi hp
    have h1 := hpts i hi
    rw [hp] at h1
    exact h1
  | none =>
    cases hc : o.configs name with
    | none =>
      have hinv := get.run_keeps xorm callers
        (get.UnconfiguredInv callers name (attempts.count name))
        (fun st j => get.step_unconfigured xorm callers name _ st j) schedule
        (Goroutines.start o attempts) ⟨he, hc, rfl, fun _ _ => trivial⟩
      obtain ⟨_, _, hk, hpts⟩ := hinv
      refine ⟨defaultEngineGroup, ?_, by omega⟩
      intro i eg hi hp
      have h1 := hpts i hi
      rw [hp] at h1
      exact h1
    | some c =>
      have hinv := get.run_keeps xorm callers
        (get.ConfiguredInv callers name c (attempts.count name))
        (fun st j => get.step_configured xorm callers name c (fun n => hok c n he hc) _ st j)
        schedule (Goroutines.start o attempts)
        ⟨(fun i hi => by cases hi), hc, Or.inl ⟨he, rfl, fun _ _ => trivial⟩⟩
      obtain ⟨_, _, hphase⟩ := hinv
      rcases hphase with ⟨_, hk, hpts⟩ | ⟨g, j0, _, hk, _, hpj0, hothers⟩ | ⟨g, _, hk, hpts⟩
      · refine ⟨defaultEngineGroup, ?_, by omega⟩
        intro i eg hi hp
        have h1 := hpts i hi
        rw [hp] at h1
        exact h1.elim
      · refine ⟨g, ?_, by omega⟩
        intro i eg hi hp
        by_cases hij : i = j0
        · subst hij
          rw [hp] at hpj0
          cases hpj0
        · have h1 := hothers i hi hij
          rw [hp] at h1
          cases h1
      · refine ⟨g, ?_, by omega⟩
        intro i eg hi hp
        have h1 := hpts i hi
        rw [hp] at h1
        exact h1

/-- Witness for C19 (amended): ten goroutines resolving "db" at first use, their steps
interleaved, in a registry where "db" can be built. -/
theorem get_concurrent_callers_agree_witness :
    ∃ g, (∀ i eg, (fun _ : Nat => "db") i = "db" →
        (get.run alwaysBuilds (fun _ => "db") (Goroutines.start dbOnly [])
          tenCallers).point i = .returned eg → eg = some g) ∧
      (get.run alwaysBuilds (fun _ => "db") (Goroutines.start dbOnly [])
          tenCallers).attempts.count "db" ≤ ([] : List String).count "db" + 1 :=
  get_concurrent_callers_agree alwaysBuilds dbOnly [] (fun _ => "db") "db" tenCallers
    (fun _ _ _ _ => rfl)

set_option maxRecDepth 100000 in
/-- Under the schedule `tenCallers` all ten goroutines return, every one of them with the
group built on the first attempt, and that attempt is the only one. -/
theorem tenCallers_all_return :
    (∀ i ∈ List.range 10,
      (get.run alwaysBuilds (fun _ => "db") (Goroutines.start dbOnly []) tenCallers).point i
        = .returned (some (get.built 1 ordersConfig))) ∧
    (get.run alwaysBuilds (fun _ => "db") (Goroutines.start dbOnly [])
      tenCallers).attempts = ["db"] := by
  decide

end xs
